import Mathlib

/-! Concurrency-in-Action, chapter 6 containers: sequential semantics.

A shallow embedding of the three fine-grained-locking containers of
`src/code_list_6`:

* `threadsafe_queue`  (list6.7-6.10/threadsafe_queue.h, threadsafe_queue.cpp)
* `threadsafe_list`   (list6.11-list6.13/threadsafe_list.h)
* `threadsafe_lookup_table` (list6.11-list6.13/threadsafe_lookup_table.h, .cpp)

The embedding is of the data flow of each member function when it runs alone
(one thread, every lock free on entry): mutexes and the condition variable are
not state of the model.  Dereferencing a null or destroyed pointer, and a
division by zero, are undefined behaviour in C++ and are results of their own
here, so that a theorem saying an operation returns a value really says so.

Some declarations of the source do not agree with the bodies they head (the
return type of `try_pop_head`, the `const` on the local pointers `new_tail` and
`next`, the lock built in `empty`, `buckets[i].data` for `buckets[i]->data`).
Each body is embedded as the statements it contains, on the values they
compute.
-/

namespace ConcurrencyInAction

/-! ## Definitions -/

/-- Ways a call can fail to return a value. -/
inductive fault where
  /-- a null or dangling pointer was dereferenced, or a number divided by zero -/
  | undefined_behaviour
  /-- the caller waits on `data_cond` and no other thread exists to notify it -/
  | blocks_forever
  deriving DecidableEq, Repr

/-! ### threadsafe_queue (threadsafe_queue.h, threadsafe_queue.cpp)

Nodes live in a store addressed by natural numbers; `std::make_unique<node>()`
returns the next unused address.  A `std::unique_ptr<node>` and a `node *` are
both an `Option Nat` (`none` is `nullptr`), which keeps the pointer comparison
`head.get() == get_tail()` of the source a comparison of addresses.  An address
is not handed out again after its node is destroyed; the source compares
addresses of live nodes only, so it cannot tell. -/

namespace threadsafe_queue

/-- The `struct node` of threadsafe_queue.h:18-21. -/
structure node (T : Type) where
  /-- Member `std::shared_ptr<T> data` -/
  data : Option T
  /-- Member `std::unique_ptr<node> next` -/
  next : Option Nat
  deriving DecidableEq, Repr

end threadsafe_queue

/-- The data members of `class threadsafe_queue` (threadsafe_queue.h:22-26),
together with the node store.  A cell of `store` that is `none` is a node that
has been destroyed. -/
structure threadsafe_queue (T : Type) where
  store : List (Option (threadsafe_queue.node T))
  /-- Member `std::unique_ptr<node> head` -/
  head : Option Nat
  /-- Member `node *tail` -/
  tail : Option Nat
  deriving DecidableEq, Repr

namespace threadsafe_queue

variable {T : Type}

/-- The constructor (threadsafe_queue.h:79):
`head(std::make_unique<node>()), tail(head.get())`. -/
def new : threadsafe_queue T :=
  { store := [some { data := none, next := none }], head := some 0, tail := some 0 }

/-- Function `get_tail` (threadsafe_queue.h:28-31). -/
def get_tail (q : threadsafe_queue T) : Option Nat :=
  q.tail

/-- Function `push` (threadsafe_queue.cpp:4-17).  `p` is the address of the
node made by `std::make_unique<node>()`; the three assignments under the tail
lock follow.  The link that `tail->next = std::move(p)` overwrites is dropped
(it is null whenever `tail` is the last node of the chain). -/
def push (q : threadsafe_queue T) (new_val : T) : Except fault (threadsafe_queue T) :=
  let new_data : Option T := some new_val
  let p : Nat := q.store.length
  let store1 := q.store ++ [some { data := none, next := none }]
  match q.tail with
  | none => .error .undefined_behaviour
  | some t =>
    match store1[t]? with
    | some (some _) =>
      -- tail->data = new_data; tail->next = std::move(p); tail = new_tail
      .ok { store := store1.set t (some { data := new_data, next := some p }),
            head := q.head,
            tail := some p }
    | _ => .error .undefined_behaviour

/-- Function `pop_head` (threadsafe_queue.h:34-38): returns the address held by
`old_head` and the queue after `head = std::move(old_head->next)`, which leaves
`old_head->next` null. -/
def pop_head (q : threadsafe_queue T) : Except fault (Nat × threadsafe_queue T) :=
  match q.head with
  | none => .error .undefined_behaviour
  | some old_head =>
    match q.store[old_head]? with
    | some (some n) =>
      .ok (old_head,
           { store := q.store.set old_head (some { data := n.data, next := none }),
             head := n.next,
             tail := q.tail })
    | _ => .error .undefined_behaviour

/-- Function `try_pop_head()` (threadsafe_queue.h:61-67).  The result is the
`std::unique_ptr<node>` the body returns (null when `head.get() == get_tail()`). -/
def try_pop_head (q : threadsafe_queue T) : Except fault (Option Nat × threadsafe_queue T) :=
  if q.head = q.get_tail then
    .ok (none, q)
  else
    match q.pop_head with
    | .ok (old_head, q1) => .ok (some old_head, q1)
    | .error e => .error e

/-- Function `try_pop()` (threadsafe_queue.h:83-86):
`old_head ? old_head->data : std::shared_ptr<T>()`; the node owned by
`old_head` is destroyed when the function returns. -/
def try_pop (q : threadsafe_queue T) : Except fault (Option T × threadsafe_queue T) :=
  match q.try_pop_head with
  | .error e => .error e
  | .ok (none, q1) => .ok (none, q1)
  | .ok (some old_head, q1) =>
    match q1.store[old_head]? with
    | some (some n) =>
      .ok (n.data, { store := q1.store.set old_head none, head := q1.head, tail := q1.tail })
    | _ => .error .undefined_behaviour

/-- Function `wait_for_data` (threadsafe_queue.h:41-46): `data_cond.wait` returns at once
when `head.get() != get_tail()`; otherwise the caller sleeps until a `push` of
another thread notifies it, and run alone it never wakes. -/
def wait_for_data (q : threadsafe_queue T) : Except fault Unit :=
  if q.head ≠ q.get_tail then .ok () else .error .blocks_forever

/-- Function `wait_pop_head()` (threadsafe_queue.h:48-52). -/
def wait_pop_head (q : threadsafe_queue T) : Except fault (Nat × threadsafe_queue T) :=
  match q.wait_for_data with
  | .error e => .error e
  | .ok () => q.pop_head

/-- Function `wait_and_pop()` (threadsafe_queue.h:93-96): `return old_head->data`, the
node owned by `old_head` being destroyed on return. -/
def wait_and_pop (q : threadsafe_queue T) : Except fault (Option T × threadsafe_queue T) :=
  match q.wait_pop_head with
  | .error e => .error e
  | .ok (old_head, q1) =>
    match q1.store[old_head]? with
    | some (some n) =>
      .ok (n.data, { store := q1.store.set old_head none, head := q1.head, tail := q1.tail })
    | _ => .error .undefined_behaviour

/-- Function `empty()` (threadsafe_queue.h:104-107): `head.get() == get_tail()`. -/
def empty (q : threadsafe_queue T) : Bool :=
  decide (q.head = q.get_tail)

/-- Push the values of `vs` one after the other, first to last. -/
def push_all (q : threadsafe_queue T) : List T → Except fault (threadsafe_queue T)
  | [] => .ok q
  | v :: vs =>
    match q.push v with
    | .ok q1 => push_all q1 vs
    | .error e => .error e

/-- Call `try_pop()` `n` times; the results are listed in call order. -/
def try_pop_n (q : threadsafe_queue T) : Nat → Except fault (List (Option T) × threadsafe_queue T)
  | 0 => .ok ([], q)
  | n + 1 =>
    match q.try_pop with
    | .error e => .error e
    | .ok (r, q1) =>
      match try_pop_n q1 n with
      | .ok (rs, q2) => .ok (r :: rs, q2)
      | .error e => .error e

/-- A call of the public interface that can change the queue. -/
inductive call (T : Type) where
  | push (new_val : T)
  | try_pop
  | wait_and_pop
  deriving DecidableEq, Repr

/-- What a sequence of calls has done: the queue it leaves, how many `push`
calls returned and how many pops returned a value. -/
structure history (T : Type) where
  queue : threadsafe_queue T
  pushes : Nat
  pops : Nat
  deriving DecidableEq, Repr

/-- One call made after the history `h`. -/
def step (h : history T) : call T → Except fault (history T)
  | .push v =>
    match h.queue.push v with
    | .ok q1 => .ok { queue := q1, pushes := h.pushes + 1, pops := h.pops }
    | .error e => .error e
  | .try_pop =>
    match h.queue.try_pop with
    | .ok (some _, q1) => .ok { queue := q1, pushes := h.pushes, pops := h.pops + 1 }
    | .ok (none, q1) => .ok { queue := q1, pushes := h.pushes, pops := h.pops }
    | .error e => .error e
  | .wait_and_pop =>
    match h.queue.wait_and_pop with
    | .ok (some _, q1) => .ok { queue := q1, pushes := h.pushes, pops := h.pops + 1 }
    | .ok (none, q1) => .ok { queue := q1, pushes := h.pushes, pops := h.pops }
    | .error e => .error e

/-- The calls of `cs` made one after the other by a single thread. -/
def run (h : history T) : List (call T) → Except fault (history T)
  | [] => .ok h
  | c :: cs =>
    match step h c with
    | .ok h1 => run h1 cs
    | .error e => .error e

/-- The history of a queue on which nothing has been called yet. -/
def fresh : history T :=
  { queue := new, pushes := 0, pops := 0 }

/-- The queue states a single thread can produce from a freshly constructed
queue with calls that return. -/
def reachable (q : threadsafe_queue T) : Prop :=
  ∃ (cs : List (call T)) (h : history T), run fresh cs = .ok h ∧ h.queue = q

/-- Representation invariant: the nodes from `head` up to `tail` sit at the
consecutive addresses `h, h+1, ..`, they carry the values `xs` in order and each
one links to the next; `tail` is the last node of the store and carries neither
a value nor a link. -/
def holds (q : threadsafe_queue T) (h : Nat) (xs : List T) : Prop :=
  q.head = some h ∧ q.tail = some (h + xs.length) ∧ q.store.length = h + xs.length + 1 ∧
  q.store[h + xs.length]? = some (some { data := none, next := none }) ∧
  ∀ i x, xs[i]? = some x →
    q.store[h + i]? = some (some { data := some x, next := some (h + i + 1) })

end threadsafe_queue

/-! ### threadsafe_list (threadsafe_list.h)

A `std::unique_ptr<node>` owns the node it points to, and with it the rest of
the chain, so the chain is an inductive value.  The per-node mutex `m` is not
part of the model. -/

namespace threadsafe_list

/-- A `std::unique_ptr<node>` (threadsafe_list.h:19-27): null, or the owner of a
node with its members `data` (`std::shared_ptr<T>`) and `next`. -/
inductive node_ptr (T : Type) where
  | null
  | owns (data : Option T) (next : node_ptr T)
  deriving DecidableEq, Repr

/-- The `struct node` of threadsafe_list.h:19-27, as the value of the member
`head`. -/
structure node (T : Type) where
  data : Option T
  next : node_ptr T
  deriving DecidableEq, Repr

end threadsafe_list

/-- The data member of `class threadsafe_list` (threadsafe_list.h:29):
`node head`, the sentinel. -/
structure threadsafe_list (T : Type) where
  head : threadsafe_list.node T
  deriving DecidableEq, Repr

namespace threadsafe_list

variable {T : Type} {σ : Type}

/-- The constructor (threadsafe_list.h:31): `head` is built by `node()`, which
leaves `data` empty and `next` null. -/
def new : threadsafe_list T :=
  { head := { data := none, next := .null } }

/-- Function `push_front` (threadsafe_list.h:38-46): `new_node` is built by
`node(const T &)`, takes over `head.next`, and becomes `head.next`. -/
def push_front (l : threadsafe_list T) (val : T) : threadsafe_list T :=
  let new_node_data : Option T := some val
  { head := { data := l.head.data, next := .owns new_node_data l.head.next } }

/-- The loop of `for_each` (threadsafe_list.h:56-66), entered with
`current->next` equal to the argument.  The visitor `f` receives `*next->data`
by reference together with its own state, and returns both as it leaves them;
the result is the chain after the visits and the visitor's final state. -/
def for_each_loop (f : T → σ → T × σ) : node_ptr T → σ → Except fault (node_ptr T × σ)
  | .null, s => .ok (.null, s)
  | .owns none _, _ => .error .undefined_behaviour
  | .owns (some d) next_next, s =>
    match for_each_loop f next_next (f d s).2 with
    | .ok (rest, s1) => .ok (.owns (some (f d s).1) rest, s1)
    | .error e => .error e

/-- Function `for_each` (threadsafe_list.h:50-67): `current` starts at `&head`. -/
def for_each (l : threadsafe_list T) (f : T → σ → T × σ) (s : σ) :
    Except fault (threadsafe_list T × σ) :=
  match for_each_loop f l.head.next s with
  | .ok (rest, s1) => .ok ({ head := { data := l.head.data, next := rest } }, s1)
  | .error e => .error e

/-- The loop of `find_first_if` (threadsafe_list.h:74-84), entered with
`current->next` equal to the argument; the result is the `std::shared_ptr<T>`
returned. -/
def find_first_if_loop (p : T → Bool) : node_ptr T → Except fault (Option T)
  | .null => .ok none
  | .owns none _ => .error .undefined_behaviour
  | .owns (some d) next_next =>
    if p d then .ok (some d) else find_first_if_loop p next_next

/-- Function `find_first_if` (threadsafe_list.h:70-86). -/
def find_first_if (l : threadsafe_list T) (p : T → Bool) : Except fault (Option T) :=
  find_first_if_loop p l.head.next

/-- The loop of `remove_if` (threadsafe_list.h:93-112), entered with
`current->next` equal to the argument; the result is what `current->next` is
when the loop ends.  When `p` holds, `current->next` becomes `next->next` and
`current` stays; otherwise `current` moves to `next`. -/
def remove_if_loop (p : T → Bool) : node_ptr T → Except fault (node_ptr T)
  | .null => .ok .null
  | .owns none _ => .error .undefined_behaviour
  | .owns (some d) next_next =>
    if p d then
      remove_if_loop p next_next
    else
      match remove_if_loop p next_next with
      | .ok rest => .ok (.owns (some d) rest)
      | .error e => .error e

/-- Function `remove_if` (threadsafe_list.h:89-113). -/
def remove_if (l : threadsafe_list T) (p : T → Bool) : Except fault (threadsafe_list T) :=
  match remove_if_loop p l.head.next with
  | .ok rest => .ok { head := { data := l.head.data, next := rest } }
  | .error e => .error e

/-- Call `push_front` on each value of `vs`, first to last. -/
def push_front_all (l : threadsafe_list T) : List T → threadsafe_list T
  | [] => l
  | v :: vs => push_front_all (l.push_front v) vs

/-- The `data` member of every node of a chain, in link order. -/
def node_ptr.payloads : node_ptr T → List (Option T)
  | .null => []
  | .owns d next => d :: payloads next

/-- The `data` member of every node linked after the sentinel, in head-to-tail
order. -/
def payloads (l : threadsafe_list T) : List (Option T) :=
  l.head.next.payloads

/-- The visitor that records the payloads it is called on, in call order, and
leaves them as they are. -/
def record : T → List T → T × List T :=
  fun x log => (x, log ++ [x])

/-- The lists a single thread can produce from a freshly constructed list with
calls of the public interface that return. -/
inductive reachable : threadsafe_list T → Prop where
  | new : reachable new
  | push_front {l : threadsafe_list T} (val : T) : reachable l → reachable (l.push_front val)
  | for_each {l l1 : threadsafe_list T} {σ : Type} (f : T → σ → T × σ) (s s1 : σ) :
      reachable l → l.for_each f s = .ok (l1, s1) → reachable l1
  | remove_if {l l1 : threadsafe_list T} (p : T → Bool) :
      reachable l → l.remove_if p = .ok l1 → reachable l1

end threadsafe_list

/-! ### threadsafe_lookup_table (threadsafe_lookup_table.h, .cpp)

A `bucket_iterator` is a position in the bucket's `std::list`: a number between
0 and the length of the list, the length being `data.end()`.  The
`std::shared_mutex` of a bucket is not part of the model. -/

namespace threadsafe_lookup_table

/-- The data member `data` of `class bucket_type`
(threadsafe_lookup_table.h:30-33): a `std::list<std::pair<Key, Value>>`. -/
structure bucket_type (Key Value : Type) where
  data : List (Key × Value)
  deriving DecidableEq, Repr

/-- Library function `std::find_if(first, last, pred)` over a whole list: the position of the
first element that satisfies `pred`, or the length of the list (`last`) when
there is none. -/
def find_if {α : Type} (pred : α → Bool) : List α → Nat
  | [] => 0
  | item :: rest => if pred item then 0 else find_if pred rest + 1

namespace bucket_type

variable {Key Value : Type} [DecidableEq Key]

/-- Function `find_entry_for` (threadsafe_lookup_table.h:37-42). -/
def find_entry_for (b : bucket_type Key Value) (key : Key) : Nat :=
  find_if (fun item : Key × Value => decide (item.1 = key)) b.data

/-- Function `bucket_type::value_for` (threadsafe_lookup_table.h:45-50). -/
def value_for (b : bucket_type Key Value) (key : Key) (default_value : Value) :
    Except fault Value :=
  let found_entry := b.find_entry_for key
  if found_entry = b.data.length then
    .ok default_value
  else
    match b.data[found_entry]? with
    | some item => .ok item.2
    | none => .error .undefined_behaviour

/-- Function `bucket_type::add_or_update_mapping` (threadsafe_lookup_table.h:52-61). -/
def add_or_update_mapping (b : bucket_type Key Value) (key : Key) (value : Value) :
    Except fault (bucket_type Key Value) :=
  let found_entry := b.find_entry_for key
  if found_entry = b.data.length then
    .ok { data := b.data ++ [(key, value)] }
  else
    match b.data[found_entry]? with
    | some item => .ok { data := b.data.set found_entry (item.1, value) }
    | none => .error .undefined_behaviour

/-- Function `bucket_type::remove_mapping` (threadsafe_lookup_table.h:63-70). -/
def remove_mapping (b : bucket_type Key Value) (key : Key) :
    Except fault (bucket_type Key Value) :=
  let found_entry := b.find_entry_for key
  if found_entry ≠ b.data.length then
    match b.data[found_entry]? with
    | some _ => .ok { data := b.data.eraseIdx found_entry }
    | none => .error .undefined_behaviour
  else
    .ok b

end bucket_type

end threadsafe_lookup_table

/-- The data members of `class threadsafe_lookup_table`
(threadsafe_lookup_table.h:73-74): `buckets` and `hasher`.  The hash of a key is
a `std::size_t`, a natural number here. -/
structure threadsafe_lookup_table (Key Value : Type) where
  buckets : List (threadsafe_lookup_table.bucket_type Key Value)
  hasher : Key → Nat

namespace threadsafe_lookup_table

variable {Key Value : Type}

/-- The constructor (threadsafe_lookup_table.h:86-91): `num_buckets` buckets,
each one empty. -/
def new (num_buckets : Nat) (hasher_ : Key → Nat) : threadsafe_lookup_table Key Value :=
  { buckets := List.replicate num_buckets { data := [] }, hasher := hasher_ }

/-- Function `get_bucket` (threadsafe_lookup_table.h:76-79).  The result is the index
`hasher(key) % buckets.size()` of the bucket referred to; the remainder of a
division by zero is undefined. -/
def get_bucket (t : threadsafe_lookup_table Key Value) (key : Key) : Except fault Nat :=
  if t.buckets.length = 0 then
    .error .undefined_behaviour
  else
    let bucket_index := t.hasher key % t.buckets.length
    .ok bucket_index

variable [DecidableEq Key]

/-- Function `value_for` (threadsafe_lookup_table.h:95-98). -/
def value_for (t : threadsafe_lookup_table Key Value) (key : Key) (default_val : Value) :
    Except fault Value :=
  match t.get_bucket key with
  | .error e => .error e
  | .ok i =>
    match t.buckets[i]? with
    | some b => b.value_for key default_val
    | none => .error .undefined_behaviour

/-- Function `add_or_update_mapping` (threadsafe_lookup_table.h:100-103). -/
def add_or_update_mapping (t : threadsafe_lookup_table Key Value) (key : Key) (val : Value) :
    Except fault (threadsafe_lookup_table Key Value) :=
  match t.get_bucket key with
  | .error e => .error e
  | .ok i =>
    match t.buckets[i]? with
    | some b =>
      match b.add_or_update_mapping key val with
      | .ok b1 => .ok { buckets := t.buckets.set i b1, hasher := t.hasher }
      | .error e => .error e
    | none => .error .undefined_behaviour

/-- Function `remove_mapping` (threadsafe_lookup_table.h:105-108). -/
def remove_mapping (t : threadsafe_lookup_table Key Value) (key : Key) :
    Except fault (threadsafe_lookup_table Key Value) :=
  match t.get_bucket key with
  | .error e => .error e
  | .ok i =>
    match t.buckets[i]? with
    | some b =>
      match b.remove_mapping key with
      | .ok b1 => .ok { buckets := t.buckets.set i b1, hasher := t.hasher }
      | .error e => .error e
    | none => .error .undefined_behaviour

/-- Library function `std::map<Key, Value>::insert(value)`: the map is its entries in ascending
key order; an entry whose key is already in the map is not inserted. -/
def map_insert {Key Value : Type} [LinearOrder Key] (item : Key × Value) :
    List (Key × Value) → List (Key × Value)
  | [] => [item]
  | e :: es =>
    if item.1 < e.1 then item :: e :: es
    else if e.1 < item.1 then e :: map_insert item es
    else e :: es

/-- Function `get_map` (threadsafe_lookup_table.cpp:4-17): every entry of every bucket,
in bucket order and in list order within a bucket, goes through `res.insert`. -/
def get_map {Key Value : Type} [LinearOrder Key] (t : threadsafe_lookup_table Key Value) :
    List (Key × Value) :=
  t.buckets.foldl (fun res b => b.data.foldl (fun res1 it => map_insert it res1) res) []

/-- The tables a single thread can produce from a freshly constructed table
with calls of `add_or_update_mapping` and `remove_mapping` that return. -/
inductive reachable : threadsafe_lookup_table Key Value → Prop where
  | new (num_buckets : Nat) (hasher_ : Key → Nat) : reachable (new num_buckets hasher_)
  | add_or_update_mapping {t t1 : threadsafe_lookup_table Key Value} (key : Key) (val : Value) :
      reachable t → t.add_or_update_mapping key val = .ok t1 → reachable t1
  | remove_mapping {t t1 : threadsafe_lookup_table Key Value} (key : Key) :
      reachable t → t.remove_mapping key = .ok t1 → reachable t1

/-- Every bucket holds each key at most once, and holds only keys whose hash
selects it. -/
def well_formed (t : threadsafe_lookup_table Key Value) : Prop :=
  ∀ i b, t.buckets[i]? = some b →
    (b.data.map Prod.fst).Nodup ∧
    ∀ item ∈ b.data, t.hasher item.1 % t.buckets.length = i

/-- Every entry of every bucket, in bucket order. -/
def entries (t : threadsafe_lookup_table Key Value) : List (Key × Value) :=
  (t.buckets.map (fun b => b.data)).flatten

end threadsafe_lookup_table

namespace threadsafe_queue

variable {T : Type}

/-- The structure of the queue from the node at address `a` on, as the note of
list6.5.cpp:59-66 describes it: following `next` links from `a` leads to `tail`;
every node met before `tail` carries a value (the values are `xs`, in order) and
a non-null `next`; the node `tail` refers to carries no value and no link. -/
def chain (q : threadsafe_queue T) : Nat → List T → Prop
  | a, [] => q.tail = some a ∧ q.store[a]? = some (some { data := none, next := none })
  | a, x :: xs =>
    ∃ b, q.store[a]? = some (some { data := some x, next := some b }) ∧ chain q b xs

/-- The structural invariant of the queue, for a queue that holds the elements
`xs`, oldest first: `head` is not null and the structure described by `chain`
starts at the node it owns. -/
def structural_invariant (q : threadsafe_queue T) (xs : List T) : Prop :=
  ∃ h, q.head = some h ∧ chain q h xs

end threadsafe_queue

/-! ### The single-lock queue (list6.2.cpp)

The queue of list6.2.cpp keeps its elements in a `std::queue<T>` under one
mutex.  It is the reference the sentinel-node queue is compared with: a list
with append at the back and removal at the front. -/

/-- The data member `data_queue` of the `threadsafe_queue` of list6.2.cpp:15: the
elements of the `std::queue<T>`, front first. -/
structure single_lock_queue (T : Type) where
  data_queue : List T
  deriving DecidableEq, Repr

namespace single_lock_queue

variable {T : Type}

/-- The constructor (list6.2.cpp:19): `data_queue` starts empty. -/
def new : single_lock_queue T :=
  { data_queue := [] }

/-- Function `push` (list6.2.cpp:21-26): `data_queue.push` appends at the back. -/
def push (q : single_lock_queue T) (new_val : T) : single_lock_queue T :=
  { data_queue := q.data_queue ++ [new_val] }

/-- Function `try_pop()` (list6.2.cpp:64-74): an empty handle when
`data_queue.empty()`, otherwise `data_queue.front()`, which `data_queue.pop()`
removes. -/
def try_pop (q : single_lock_queue T) : Option T × single_lock_queue T :=
  match q.data_queue with
  | [] => (none, q)
  | front :: rest => (some front, { data_queue := rest })

/-- Function `wait_and_pop()` (list6.2.cpp:37-52): waits until
`!data_queue.empty()`, then takes the front element; run alone on an empty
queue it never wakes. -/
def wait_and_pop (q : single_lock_queue T) : Except fault (Option T × single_lock_queue T) :=
  match q.data_queue with
  | [] => .error .blocks_forever
  | front :: rest => .ok (some front, { data_queue := rest })

/-- Function `empty()` (list6.2.cpp:76-79). -/
def empty (q : single_lock_queue T) : Bool :=
  q.data_queue.isEmpty

/-- What the pops of a sequence of calls return, in call order. -/
def results (q : single_lock_queue T) : List (threadsafe_queue.call T) →
    Except fault (List (Option T))
  | [] => .ok []
  | .push v :: cs => results (q.push v) cs
  | .try_pop :: cs =>
    match results (q.try_pop).2 cs with
    | .ok rs => .ok ((q.try_pop).1 :: rs)
    | .error e => .error e
  | .wait_and_pop :: cs =>
    match q.wait_and_pop with
    | .error e => .error e
    | .ok (r, q1) =>
      match results q1 cs with
      | .ok rs => .ok (r :: rs)
      | .error e => .error e

end single_lock_queue

namespace threadsafe_queue

variable {T : Type}

/-- What the pops of a sequence of calls return, in call order. -/
def results (q : threadsafe_queue T) : List (call T) → Except fault (List (Option T))
  | [] => .ok []
  | .push v :: cs =>
    match q.push v with
    | .error e => .error e
    | .ok q1 => results q1 cs
  | .try_pop :: cs =>
    match q.try_pop with
    | .error e => .error e
    | .ok (r, q1) =>
      match results q1 cs with
      | .ok rs => .ok (r :: rs)
      | .error e => .error e
  | .wait_and_pop :: cs =>
    match q.wait_and_pop with
    | .error e => .error e
    | .ok (r, q1) =>
      match results q1 cs with
      | .ok rs => .ok (r :: rs)
      | .error e => .error e

/-- The values a sequence of calls pushes, in call order. -/
def pushed : List (call T) → List T
  | [] => []
  | .push v :: cs => v :: pushed cs
  | .try_pop :: cs => pushed cs
  | .wait_and_pop :: cs => pushed cs

end threadsafe_queue

namespace threadsafe_list

variable {T : Type}

/-- The destructor (threadsafe_list.h:32-34): `remove_if` with the predicate
that returns `true` whatever it is given. -/
def destructor (l : threadsafe_list T) : Except fault (threadsafe_list T) :=
  l.remove_if (fun _ => true)

end threadsafe_list

/-! ## Theorems -/

namespace threadsafe_queue

variable {T : Type}

theorem holds_new : holds (new : threadsafe_queue T) 0 [] := by
  simp [holds, new]

theorem holds_push {q : threadsafe_queue T} {h : Nat} {xs : List T} (hq : holds q h xs)
    (v : T) : ∃ q1, q.push v = .ok q1 ∧ holds q1 h (xs ++ [v]) := by
  obtain ⟨hh, ht, hl, hs, hc⟩ := hq
  have e1 : (q.store ++ [some ({ data := none, next := none } : node T)])[h + xs.length]?
      = some (some { data := none, next := none }) := by
    rw [List.getElem?_append_left (by omega)]; exact hs
  have hp : q.push v = .ok
      { store := (q.store ++ [some ({ data := none, next := none } : node T)]).set (h + xs.length)
          (some { data := some v, next := some q.store.length }),
        head := q.head, tail := some q.store.length } := by
    simp only [push, ht, e1]
  refine ⟨_, hp, hh, ?_, ?_, ?_, ?_⟩
  · simp [hl]; omega
  · simp [hl]; omega
  · simp only [List.getElem?_set, List.getElem?_append, hl, List.length_append,
      List.length_singleton]
    have e : h + (xs.length + 1) - (h + xs.length + 1) = 0 := by omega
    rw [if_neg (by omega), if_neg (by omega), e]
    rfl
  · intro i x hx
    simp only [List.getElem?_set, List.getElem?_append, hl, List.length_append,
      List.length_singleton]
    rcases Nat.lt_trichotomy i xs.length with hi | hi | hi
    · rw [List.getElem?_append_left hi] at hx
      rw [if_neg (by omega), if_pos (by omega)]
      exact hc i x hx
    · subst hi
      rw [List.getElem?_append_right (le_refl _)] at hx
      simp at hx
      subst hx
      simp
      omega
    · rw [List.getElem?_append_right (by omega)] at hx
      have : i - xs.length = (i - xs.length - 1) + 1 := by omega
      rw [this] at hx
      simp at hx

theorem holds_empty {q : threadsafe_queue T} {h : Nat} {xs : List T} (hq : holds q h xs) :
    q.empty = true ↔ xs = [] := by
  obtain ⟨hh, ht, -⟩ := hq
  simp [empty, get_tail, hh, ht]

theorem holds_try_pop_nil {q : threadsafe_queue T} {h : Nat} (hq : holds q h []) :
    q.try_pop = .ok (none, q) := by
  obtain ⟨hh, ht, -⟩ := hq
  simp [try_pop, try_pop_head, get_tail, hh, ht]

theorem holds_wait_and_pop_nil {q : threadsafe_queue T} {h : Nat} (hq : holds q h []) :
    q.wait_and_pop = .error .blocks_forever := by
  obtain ⟨hh, ht, -⟩ := hq
  simp [wait_and_pop, wait_pop_head, wait_for_data, get_tail, hh, ht]

theorem holds_pop_head {q : threadsafe_queue T} {h : Nat} {x : T} {xs : List T}
    (hq : holds q h (x :: xs)) :
    q.pop_head = .ok (h, { store := q.store.set h (some { data := some x, next := none }),
                           head := some (h + 1), tail := q.tail }) := by
  obtain ⟨hh, ht, hl, hs, hc⟩ := hq
  have e := hc 0 x (by simp)
  simp only [Nat.add_zero] at e
  simp only [pop_head, hh, e]

theorem holds_after_pop {q : threadsafe_queue T} {h : Nat} {x : T} {xs : List T}
    (hq : holds q h (x :: xs)) :
    holds { store := (q.store.set h (some { data := some x, next := none })).set h none,
            head := some (h + 1), tail := q.tail } (h + 1) xs := by
  obtain ⟨hh, ht, hl, hs, hc⟩ := hq
  simp only [List.length_cons] at ht hl hs
  refine ⟨rfl, ?_, ?_, ?_, ?_⟩
  · simp only [ht]; congr 1; omega
  · simp only [List.length_set, hl]; omega
  · simp only [List.getElem?_set]
    rw [if_neg (by omega), if_neg (by omega)]
    rw [← hs]; congr 1; omega
  · intro i y hy
    simp only [List.getElem?_set]
    rw [if_neg (by omega), if_neg (by omega)]
    have e := hc (i + 1) y (by simpa using hy)
    have a1 : h + 1 + i = h + (i + 1) := by omega
    rw [a1]; exact e

theorem holds_try_pop_cons {q : threadsafe_queue T} {h : Nat} {x : T} {xs : List T}
    (hq : holds q h (x :: xs)) :
    ∃ q1, q.try_pop = .ok (some x, q1) ∧ holds q1 (h + 1) xs := by
  have hne : q.head ≠ q.get_tail := by
    obtain ⟨hh, ht, -⟩ := hq
    simp [get_tail, hh, ht]
  have hlt : h < q.store.length := by
    obtain ⟨-, -, hl, -⟩ := hq
    omega
  refine ⟨_, ?_, holds_after_pop hq⟩
  simp [try_pop, try_pop_head, hne, holds_pop_head hq, hlt]

theorem holds_wait_and_pop_cons {q : threadsafe_queue T} {h : Nat} {x : T} {xs : List T}
    (hq : holds q h (x :: xs)) :
    ∃ q1, q.wait_and_pop = .ok (some x, q1) ∧ holds q1 (h + 1) xs := by
  have hne : q.head ≠ q.get_tail := by
    obtain ⟨hh, ht, -⟩ := hq
    simp [get_tail, hh, ht]
  have hlt : h < q.store.length := by
    obtain ⟨-, -, hl, -⟩ := hq
    omega
  refine ⟨_, ?_, holds_after_pop hq⟩
  simp [wait_and_pop, wait_pop_head, wait_for_data, hne, holds_pop_head hq, hlt]

theorem holds_push_all (vs : List T) : ∀ {q : threadsafe_queue T} {h : Nat} {xs : List T},
    holds q h xs → ∃ q1, q.push_all vs = .ok q1 ∧ holds q1 h (xs ++ vs) := by
  induction vs with
  | nil =>
    intro q h xs hq
    exact ⟨q, rfl, by simpa using hq⟩
  | cons v vs ih =>
    intro q h xs hq
    obtain ⟨q1, e1, h1⟩ := holds_push hq v
    obtain ⟨q2, e2, h2⟩ := ih h1
    refine ⟨q2, ?_, by simpa using h2⟩
    simp only [push_all, e1, e2]

theorem holds_try_pop_n {xs : List T} : ∀ {q : threadsafe_queue T} {h : Nat},
    holds q h xs →
    ∃ q1, q.try_pop_n xs.length = .ok (xs.map some, q1) ∧ holds q1 (h + xs.length) [] := by
  induction xs with
  | nil =>
    intro q h hq
    exact ⟨q, rfl, hq⟩
  | cons x xs ih =>
    intro q h hq
    obtain ⟨q1, e1, h1⟩ := holds_try_pop_cons hq
    obtain ⟨q2, e2, h2⟩ := ih h1
    refine ⟨q2, ?_, ?_⟩
    · simp only [List.length_cons, try_pop_n, e1, e2, List.map_cons]
    · have a : h + (x :: xs).length = h + 1 + xs.length := by simp; omega
      rw [a]; exact h2

/-- One call keeps the representation invariant and the two counters in step
with it: the head address counts the pops that returned a value, and the tail
address counts the pushes.  A call never has undefined behaviour, and only
`wait_and_pop` can fail to return. -/
theorem step_holds {hist : history T} {xs : List T}
    (hq : holds hist.queue hist.pops xs) (hn : hist.pushes = hist.pops + xs.length)
    (c : call T) :
    (c = .wait_and_pop ∧ xs = [] ∧ step hist c = .error .blocks_forever) ∨
    ∃ hist1 ys, step hist c = .ok hist1 ∧ holds hist1.queue hist1.pops ys ∧
      hist1.pushes = hist1.pops + ys.length := by
  cases c with
  | push v =>
    obtain ⟨q1, e1, h1⟩ := holds_push hq v
    refine Or.inr ⟨{ queue := q1, pushes := hist.pushes + 1, pops := hist.pops },
      xs ++ [v], ?_, ?_, ?_⟩
    · simp only [step, e1]
    · exact h1
    · simp [hn]; omega
  | try_pop =>
    cases xs with
    | nil =>
      refine Or.inr ⟨hist, [], ?_, hq, hn⟩
      simp only [step, holds_try_pop_nil hq]
    | cons x xs =>
      obtain ⟨q1, e1, h1⟩ := holds_try_pop_cons hq
      refine Or.inr ⟨{ queue := q1, pushes := hist.pushes, pops := hist.pops + 1 },
        xs, ?_, ?_, ?_⟩
      · simp only [step, e1]
      · exact h1
      · simp [hn]; omega
  | wait_and_pop =>
    cases xs with
    | nil =>
      refine Or.inl ⟨rfl, rfl, ?_⟩
      simp only [step, holds_wait_and_pop_nil hq]
    | cons x xs =>
      obtain ⟨q1, e1, h1⟩ := holds_wait_and_pop_cons hq
      refine Or.inr ⟨{ queue := q1, pushes := hist.pushes, pops := hist.pops + 1 },
        xs, ?_, ?_, ?_⟩
      · simp only [step, e1]
      · exact h1
      · simp [hn]; omega

theorem run_holds (cs : List (call T)) : ∀ {hist : history T} {xs : List T},
    holds hist.queue hist.pops xs → hist.pushes = hist.pops + xs.length →
    (call.wait_and_pop ∈ cs ∧ run hist cs = .error .blocks_forever) ∨
    ∃ hist1 ys, run hist cs = .ok hist1 ∧ holds hist1.queue hist1.pops ys ∧
      hist1.pushes = hist1.pops + ys.length := by
  induction cs with
  | nil =>
    intro hist xs hq hn
    exact Or.inr ⟨hist, xs, rfl, hq, hn⟩
  | cons c cs ih =>
    intro hist xs hq hn
    rcases step_holds hq hn c with ⟨hc, -, e⟩ | ⟨hist1, ys, e, h1, n1⟩
    · refine Or.inl ⟨by simp [hc], ?_⟩
      simp only [run, e]
    · rcases ih h1 n1 with ⟨hm, e2⟩ | ⟨hist2, zs, e2, h2, n2⟩
      · refine Or.inl ⟨by simp [hm], ?_⟩
        simp only [run, e, e2]
      · refine Or.inr ⟨hist2, zs, ?_, h2, n2⟩
        simp only [run, e, e2]

theorem fresh_holds : holds (fresh : history T).queue (fresh : history T).pops [] ∧
    (fresh : history T).pushes = (fresh : history T).pops + ([] : List T).length :=
  ⟨holds_new, rfl⟩

theorem reachable_holds {q : threadsafe_queue T} (hr : reachable q) :
    ∃ h xs, holds q h xs := by
  obtain ⟨cs, hist, e, rfl⟩ := hr
  rcases run_holds cs fresh_holds.1 fresh_holds.2 with ⟨-, e2⟩ | ⟨hist1, ys, e2, h2, -⟩
  · rw [e] at e2; cases e2
  · rw [e] at e2; cases e2
    exact ⟨_, ys, h2⟩

end threadsafe_queue

namespace threadsafe_list

variable {T : Type} {σ : Type}

theorem for_each_loop_payloads (f : T → σ → T × σ) (xs : List T) :
    ∀ (n : node_ptr T) (s : σ), n.payloads = xs.map some →
    ∃ (n1 : node_ptr T) (ys : List T),
      for_each_loop f n s = .ok (n1, xs.foldl (fun s1 x => (f x s1).2) s) ∧
      n1.payloads = ys.map some := by
  induction xs with
  | nil =>
    intro n s hn
    cases n with
    | null => exact ⟨.null, [], rfl, rfl⟩
    | owns d nx => simp [node_ptr.payloads] at hn
  | cons x xs ih =>
    intro n s hn
    cases n with
    | null => simp [node_ptr.payloads] at hn
    | owns d nx =>
      simp only [node_ptr.payloads, List.map_cons, List.cons.injEq] at hn
      obtain ⟨hd, hx⟩ := hn
      subst hd
      obtain ⟨n1, ys, e, hy⟩ := ih nx (f x s).2 hx
      refine ⟨.owns (some (f x s).1) n1, (f x s).1 :: ys, ?_, ?_⟩
      · simp only [for_each_loop, e, List.foldl_cons]
      · simp only [node_ptr.payloads, hy, List.map_cons]

theorem for_each_loop_record (xs : List T) :
    ∀ (n : node_ptr T) (log : List T), n.payloads = xs.map some →
    for_each_loop record n log = .ok (n, log ++ xs) := by
  induction xs with
  | nil =>
    intro n log hn
    cases n with
    | null => simp [for_each_loop]
    | owns d nx => simp [node_ptr.payloads] at hn
  | cons x xs ih =>
    intro n log hn
    cases n with
    | null => simp [node_ptr.payloads] at hn
    | owns d nx =>
      simp only [node_ptr.payloads, List.map_cons, List.cons.injEq] at hn
      obtain ⟨hd, hx⟩ := hn
      subst hd
      have e := ih nx (log ++ [x]) hx
      simp only [for_each_loop, record] at e ⊢
      simp only [e, List.append_assoc, List.singleton_append]

theorem find_first_if_loop_find (p : T → Bool) (xs : List T) :
    ∀ n : node_ptr T, n.payloads = xs.map some →
    find_first_if_loop p n = .ok (xs.find? p) := by
  induction xs with
  | nil =>
    intro n hn
    cases n with
    | null => rfl
    | owns d nx => simp [node_ptr.payloads] at hn
  | cons x xs ih =>
    intro n hn
    cases n with
    | null => simp [node_ptr.payloads] at hn
    | owns d nx =>
      simp only [node_ptr.payloads, List.map_cons, List.cons.injEq] at hn
      obtain ⟨hd, hx⟩ := hn
      subst hd
      by_cases hp : p x = true
      · simp [find_first_if_loop, hp]
      · simp [find_first_if_loop, hp, ih nx hx]

theorem remove_if_loop_filter (p : T → Bool) (xs : List T) :
    ∀ n : node_ptr T, n.payloads = xs.map some →
    ∃ n1, remove_if_loop p n = .ok n1 ∧
      n1.payloads = (xs.filter (fun x => !p x)).map some := by
  induction xs with
  | nil =>
    intro n hn
    cases n with
    | null => exact ⟨.null, rfl, rfl⟩
    | owns d nx => simp [node_ptr.payloads] at hn
  | cons x xs ih =>
    intro n hn
    cases n with
    | null => simp [node_ptr.payloads] at hn
    | owns d nx =>
      simp only [node_ptr.payloads, List.map_cons, List.cons.injEq] at hn
      obtain ⟨hd, hx⟩ := hn
      subst hd
      obtain ⟨n1, e, h1⟩ := ih nx hx
      by_cases hp : p x = true
      · refine ⟨n1, ?_, ?_⟩
        · simp [remove_if_loop, hp, e]
        · simp [hp, h1]
      · refine ⟨.owns (some x) n1, ?_, ?_⟩
        · simp [remove_if_loop, hp, e]
        · simp [hp, h1, node_ptr.payloads]

theorem payloads_push_front_all (vs : List T) : ∀ l : threadsafe_list T,
    (l.push_front_all vs).payloads = vs.reverse.map some ++ l.payloads := by
  induction vs with
  | nil => intro l; rfl
  | cons v vs ih =>
    intro l
    rw [push_front_all, ih]
    simp [payloads, push_front, node_ptr.payloads]

/-- Every node linked in a list built through the public interface carries a
payload. -/
theorem reachable_payloads {l : threadsafe_list T} (hr : reachable l) :
    ∃ xs : List T, l.payloads = xs.map some := by
  induction hr with
  | new => exact ⟨[], rfl⟩
  | push_front val _ ih =>
    obtain ⟨xs, hx⟩ := ih
    exact ⟨val :: xs, by simpa [payloads, push_front, node_ptr.payloads] using hx⟩
  | for_each f s s1 _ e ih =>
    obtain ⟨xs, hx⟩ := ih
    obtain ⟨n1, ys, e1, hy⟩ := for_each_loop_payloads f xs _ s hx
    simp only [for_each, e1, Except.ok.injEq, Prod.mk.injEq] at e
    obtain ⟨rfl, -⟩ := e
    exact ⟨ys, hy⟩
  | remove_if p _ e ih =>
    obtain ⟨xs, hx⟩ := ih
    obtain ⟨n1, e1, h1⟩ := remove_if_loop_filter p xs _ hx
    simp only [remove_if, e1, Except.ok.injEq] at e
    subst e
    exact ⟨_, h1⟩

end threadsafe_list

namespace threadsafe_lookup_table

theorem find_if_le {α : Type} (pred : α → Bool) (l : List α) : find_if pred l ≤ l.length := by
  induction l with
  | nil => simp [find_if]
  | cons x xs ih =>
    by_cases hx : pred x = true
    · simp [find_if, hx]
    · simp [find_if, hx, ih]

theorem find_if_take {α : Type} (pred : α → Bool) (l : List α) :
    ∀ x ∈ l.take (find_if pred l), pred x = false := by
  induction l with
  | nil => simp [find_if]
  | cons y ys ih =>
    by_cases hy : pred y = true
    · simp [find_if, hy]
    · intro x hx
      simp only [find_if, hy, Bool.false_eq_true, if_false, List.take_succ_cons,
        List.mem_cons] at hx
      rcases hx with rfl | hx
      · simpa using hy
      · exact ih x hx

theorem find_if_getElem? {α : Type} (pred : α → Bool) (l : List α) (item : α)
    (h : l[find_if pred l]? = some item) : pred item = true := by
  induction l with
  | nil => simp at h
  | cons y ys ih =>
    by_cases hy : pred y = true
    · simp [find_if, hy] at h
      subst h; exact hy
    · simp only [find_if, hy, Bool.false_eq_true, if_false, List.getElem?_cons_succ] at h
      exact ih h

theorem find_if_eq_length {α : Type} (pred : α → Bool) (l : List α)
    (h : ∀ x ∈ l, pred x = false) : find_if pred l = l.length := by
  induction l with
  | nil => rfl
  | cons y ys ih =>
    have hy : pred y = false := h y (by simp)
    simp [find_if, hy, ih (fun x hx => h x (by simp [hx]))]

theorem find_if_append {α : Type} (pred : α → Bool) (l1 l2 : List α)
    (h : ∀ x ∈ l1, pred x = false) :
    find_if pred (l1 ++ l2) = l1.length + find_if pred l2 := by
  induction l1 with
  | nil => simp
  | cons y ys ih =>
    have hy : pred y = false := h y (by simp)
    simp [find_if, hy, ih (fun x hx => h x (by simp [hx]))]
    omega

theorem find_if_lt_of_mem {α : Type} (pred : α → Bool) (l : List α) (x : α)
    (hx : x ∈ l) (hp : pred x = true) : find_if pred l < l.length := by
  rcases Nat.lt_or_ge (find_if pred l) l.length with h | h
  · exact h
  · have hall := find_if_take pred l
    rw [List.take_of_length_le h] at hall
    rw [hall x hx] at hp
    cases hp

namespace bucket_type

variable {Key Value : Type} [DecidableEq Key]

theorem find_entry_for_le (b : bucket_type Key Value) (key : Key) :
    b.find_entry_for key ≤ b.data.length :=
  find_if_le _ _

theorem before_find_entry_for (b : bucket_type Key Value) (key : Key) :
    ∀ item ∈ b.data.take (b.find_entry_for key), item.1 ≠ key := by
  intro item h
  simpa using find_if_take _ _ item h

theorem at_find_entry_for (b : bucket_type Key Value) (key : Key) (item : Key × Value)
    (h : b.data[b.find_entry_for key]? = some item) : item.1 = key := by
  simpa using find_if_getElem? _ _ item h

theorem bucket_value_for_eq (b : bucket_type Key Value) (key : Key) (d : Value) :
    b.value_for key d = .ok (match b.data[b.find_entry_for key]? with
      | some item => item.2
      | none => d) := by
  unfold value_for
  by_cases h : b.find_entry_for key = b.data.length
  · simp [h]
  · have hlt : b.find_entry_for key < b.data.length :=
      lt_of_le_of_ne (find_entry_for_le b key) h
    simp [h, List.getElem?_eq_getElem hlt]

theorem bucket_add_or_update_mapping_eq (b : bucket_type Key Value) (key : Key) (v : Value) :
    b.add_or_update_mapping key v = .ok
      { data := b.data.take (b.find_entry_for key) ++
          (key, v) :: b.data.drop (b.find_entry_for key + 1) } := by
  unfold add_or_update_mapping
  by_cases h : b.find_entry_for key = b.data.length
  · simp [h]
  · have hlt : b.find_entry_for key < b.data.length :=
      lt_of_le_of_ne (find_entry_for_le b key) h
    have hk := at_find_entry_for b key _ (List.getElem?_eq_getElem hlt)
    simp [h, List.getElem?_eq_getElem hlt, hk, List.set_eq_take_append_cons_drop, hlt]

theorem bucket_remove_mapping_eq (b : bucket_type Key Value) (key : Key) :
    b.remove_mapping key = .ok
      { data := b.data.take (b.find_entry_for key) ++
          b.data.drop (b.find_entry_for key + 1) } := by
  unfold remove_mapping
  by_cases h : b.find_entry_for key = b.data.length
  · have hd : List.drop (b.data.length + 1) b.data = [] :=
      List.drop_of_length_le (by omega)
    simp [h, hd]
  · have hlt : b.find_entry_for key < b.data.length :=
      lt_of_le_of_ne (find_entry_for_le b key) h
    simp [h, List.getElem?_eq_getElem hlt, List.eraseIdx_eq_take_drop_succ]

end bucket_type

end threadsafe_lookup_table

namespace threadsafe_lookup_table

namespace bucket_type

variable {Key Value : Type} [DecidableEq Key]

theorem value_for_of_first (l1 l2 : List (Key × Value)) (key : Key) (v d : Value)
    (h : ∀ item ∈ l1, item.1 ≠ key) :
    ({ data := l1 ++ (key, v) :: l2 } : bucket_type Key Value).value_for key d = .ok v := by
  have hf : ({ data := l1 ++ (key, v) :: l2 } : bucket_type Key Value).find_entry_for key
      = l1.length := by
    unfold find_entry_for
    rw [find_if_append _ _ _ (fun x hx => by simpa using h x hx)]
    simp [find_if]
  have hg : (l1 ++ (key, v) :: l2)[l1.length]? = some (key, v) := by
    rw [List.getElem?_append_right (le_refl _)]
    simp
  rw [bucket_value_for_eq, hf]
  simp only [hg]

theorem value_for_of_absent (l : List (Key × Value)) (key : Key) (d : Value)
    (h : ∀ item ∈ l, item.1 ≠ key) :
    ({ data := l } : bucket_type Key Value).value_for key d = .ok d := by
  have hf : ({ data := l } : bucket_type Key Value).find_entry_for key = l.length :=
    find_if_eq_length _ _ (fun x hx => by simpa using h x hx)
  rw [bucket_value_for_eq, hf]
  simp

theorem data_split (b : bucket_type Key Value) (key : Key)
    (hlt : b.find_entry_for key < b.data.length) :
    ∃ v0, b.data = b.data.take (b.find_entry_for key) ++
      (key, v0) :: b.data.drop (b.find_entry_for key + 1) := by
  have hk := at_find_entry_for b key _ (List.getElem?_eq_getElem hlt)
  refine ⟨(b.data[b.find_entry_for key]).2, ?_⟩
  have e : ((key, (b.data[b.find_entry_for key]).2) : Key × Value)
      = b.data[b.find_entry_for key] :=
    Prod.ext hk.symm rfl
  rw [e, ← List.drop_eq_getElem_cons hlt, List.take_append_drop]

theorem keys_after_add (b : bucket_type Key Value) (key : Key) (v : Value) :
    ((b.data.take (b.find_entry_for key) ++
        (key, v) :: b.data.drop (b.find_entry_for key + 1)).map Prod.fst
      = b.data.map Prod.fst ∧ b.find_entry_for key < b.data.length) ∨
    (b.data.take (b.find_entry_for key) ++
        (key, v) :: b.data.drop (b.find_entry_for key + 1) = b.data ++ [(key, v)] ∧
      ∀ item ∈ b.data, item.1 ≠ key) := by
  rcases Nat.lt_or_ge (b.find_entry_for key) b.data.length with hlt | hge
  · left
    obtain ⟨v0, e⟩ := data_split b key hlt
    refine ⟨?_, hlt⟩
    conv_rhs => rw [e]
    simp
  · right
    have hb := before_find_entry_for b key
    rw [List.take_of_length_le hge] at hb ⊢
    rw [List.drop_of_length_le (by omega)]
    exact ⟨rfl, hb⟩

theorem nodup_after_add (b : bucket_type Key Value) (key : Key) (v : Value)
    (hn : (b.data.map Prod.fst).Nodup) :
    ((b.data.take (b.find_entry_for key) ++
        (key, v) :: b.data.drop (b.find_entry_for key + 1)).map Prod.fst).Nodup := by
  rcases keys_after_add b key v with ⟨e, -⟩ | ⟨e, ha⟩
  · rw [e]; exact hn
  · rw [e, List.map_append, List.nodup_append]
    refine ⟨hn, by simp, ?_⟩
    intro a ha1 ha2
    simp only [List.map_cons, List.map_nil, List.mem_singleton] at ha2
    subst ha2
    obtain ⟨item, hi, rfl⟩ := List.mem_map.1 ha1
    exact ha item hi rfl

theorem mem_after_add (b : bucket_type Key Value) (key : Key) (v : Value)
    (item : Key × Value)
    (h : item ∈ b.data.take (b.find_entry_for key) ++
        (key, v) :: b.data.drop (b.find_entry_for key + 1)) :
    item ∈ b.data ∨ item = (key, v) := by
  simp only [List.mem_append, List.mem_cons] at h
  rcases h with h | h | h
  · exact Or.inl (List.mem_of_mem_take h)
  · exact Or.inr h
  · exact Or.inl (List.mem_of_mem_drop h)

theorem sublist_after_remove (b : bucket_type Key Value) (key : Key) :
    List.Sublist (b.data.take (b.find_entry_for key) ++ b.data.drop (b.find_entry_for key + 1))
      b.data := by
  rw [← List.eraseIdx_eq_take_drop_succ]
  exact List.eraseIdx_sublist _ _

theorem absent_after_remove (b : bucket_type Key Value) (key : Key)
    (hn : (b.data.map Prod.fst).Nodup) :
    ∀ item ∈ b.data.take (b.find_entry_for key) ++ b.data.drop (b.find_entry_for key + 1),
      item.1 ≠ key := by
  intro item hi
  rcases List.mem_append.1 hi with h | h
  · exact before_find_entry_for b key item h
  · rcases Nat.lt_or_ge (b.find_entry_for key) b.data.length with hlt | hge
    · obtain ⟨v0, e⟩ := data_split b key hlt
      rw [e, List.map_append, List.map_cons, List.nodup_append, List.nodup_cons] at hn
      intro hk
      exact hn.2.1.1 (List.mem_map.2 ⟨item, h, hk⟩)
    · rw [List.drop_of_length_le (by omega)] at h
      cases h

end bucket_type

end threadsafe_lookup_table

namespace threadsafe_lookup_table

variable {Key Value : Type}

theorem get_bucket_eq (t : threadsafe_lookup_table Key Value) (key : Key)
    (h : 0 < t.buckets.length) :
    t.get_bucket key = .ok (t.hasher key % t.buckets.length) ∧
    ∃ b, t.buckets[t.hasher key % t.buckets.length]? = some b := by
  constructor
  · simp [get_bucket, Nat.ne_of_gt h]
  · exact ⟨_, List.getElem?_eq_getElem (Nat.mod_lt _ h)⟩

theorem well_formed_new (num_buckets : Nat) (hasher_ : Key → Nat) :
    well_formed (new num_buckets hasher_ : threadsafe_lookup_table Key Value) := by
  intro i b hb
  simp only [new, List.getElem?_replicate] at hb
  split at hb
  · cases hb
    simp
  · cases hb

variable [DecidableEq Key]

theorem value_for_eq (t : threadsafe_lookup_table Key Value) (key : Key) (d : Value)
    (h : 0 < t.buckets.length) (b : bucket_type Key Value)
    (hb : t.buckets[t.hasher key % t.buckets.length]? = some b) :
    t.value_for key d = b.value_for key d := by
  simp only [value_for, (get_bucket_eq t key h).1, hb]

theorem value_for_set (t : threadsafe_lookup_table Key Value) (key : Key) (d : Value)
    (h : 0 < t.buckets.length) (b1 : bucket_type Key Value) :
    ({ buckets := t.buckets.set (t.hasher key % t.buckets.length) b1, hasher := t.hasher } :
      threadsafe_lookup_table Key Value).value_for key d = b1.value_for key d := by
  have hlt : t.hasher key % t.buckets.length < t.buckets.length := Nat.mod_lt _ h
  apply value_for_eq
  · simpa using h
  · simp [List.getElem?_set, hlt]

theorem add_or_update_mapping_eq (t : threadsafe_lookup_table Key Value) (key : Key)
    (v : Value) (h : 0 < t.buckets.length) (b : bucket_type Key Value)
    (hb : t.buckets[t.hasher key % t.buckets.length]? = some b) :
    t.add_or_update_mapping key v = .ok
      { buckets := t.buckets.set (t.hasher key % t.buckets.length)
          { data := b.data.take (b.find_entry_for key) ++
              (key, v) :: b.data.drop (b.find_entry_for key + 1) },
        hasher := t.hasher } := by
  simp only [add_or_update_mapping, (get_bucket_eq t key h).1, hb,
    bucket_type.bucket_add_or_update_mapping_eq]

theorem remove_mapping_eq (t : threadsafe_lookup_table Key Value) (key : Key)
    (h : 0 < t.buckets.length) (b : bucket_type Key Value)
    (hb : t.buckets[t.hasher key % t.buckets.length]? = some b) :
    t.remove_mapping key = .ok
      { buckets := t.buckets.set (t.hasher key % t.buckets.length)
          { data := b.data.take (b.find_entry_for key) ++
              b.data.drop (b.find_entry_for key + 1) },
        hasher := t.hasher } := by
  simp only [remove_mapping, (get_bucket_eq t key h).1, hb,
    bucket_type.bucket_remove_mapping_eq]

theorem well_formed_add_or_update_mapping {t t1 : threadsafe_lookup_table Key Value}
    (hw : well_formed t) (key : Key) (v : Value)
    (e : t.add_or_update_mapping key v = .ok t1) : well_formed t1 := by
  rcases Nat.eq_zero_or_pos t.buckets.length with h0 | hpos
  · simp [add_or_update_mapping, get_bucket, h0] at e
  · obtain ⟨b, hb⟩ := (get_bucket_eq t key hpos).2
    rw [add_or_update_mapping_eq t key v hpos b hb] at e
    cases e
    intro i b1 hb1
    simp only [List.getElem?_set, List.length_set] at hb1 ⊢
    split at hb1
    · rename_i hi
      split at hb1
      · cases hb1
        refine ⟨bucket_type.nodup_after_add b key v (hw _ b hb).1, ?_⟩
        intro item hitem
        rcases bucket_type.mem_after_add b key v item hitem with hm | hm
        · rw [← hi]; exact (hw _ b hb).2 item hm
        · rw [hm, ← hi]
      · cases hb1
    · exact hw i b1 hb1

theorem well_formed_remove_mapping {t t1 : threadsafe_lookup_table Key Value}
    (hw : well_formed t) (key : Key)
    (e : t.remove_mapping key = .ok t1) : well_formed t1 := by
  rcases Nat.eq_zero_or_pos t.buckets.length with h0 | hpos
  · simp [remove_mapping, get_bucket, h0] at e
  · obtain ⟨b, hb⟩ := (get_bucket_eq t key hpos).2
    rw [remove_mapping_eq t key hpos b hb] at e
    cases e
    intro i b1 hb1
    simp only [List.getElem?_set, List.length_set] at hb1 ⊢
    split at hb1
    · rename_i hi
      split at hb1
      · cases hb1
        have hs := bucket_type.sublist_after_remove b key
        refine ⟨List.Nodup.sublist (hs.map Prod.fst) (hw _ b hb).1, ?_⟩
        intro item hitem
        rw [← hi]; exact (hw _ b hb).2 item (hs.subset hitem)
      · cases hb1
    · exact hw i b1 hb1

theorem reachable_well_formed {t : threadsafe_lookup_table Key Value} (hr : reachable t) :
    well_formed t := by
  induction hr with
  | new n h => exact well_formed_new n h
  | add_or_update_mapping key val _ e ih => exact well_formed_add_or_update_mapping ih key val e
  | remove_mapping key _ e ih => exact well_formed_remove_mapping ih key e

end threadsafe_lookup_table

namespace threadsafe_lookup_table

section get_map_lemmas

variable {Key Value : Type}

theorem entries_nodup {t : threadsafe_lookup_table Key Value} (hw : well_formed t) :
    (t.entries.map Prod.fst).Nodup := by
  simp only [entries, List.map_flatten, List.map_map]
  rw [List.nodup_flatten]
  constructor
  · intro l hl
    obtain ⟨b, hb, rfl⟩ := List.mem_map.1 hl
    obtain ⟨i, hi⟩ := List.getElem?_of_mem hb
    exact (hw i b hi).1
  · rw [List.pairwise_map, List.pairwise_iff_getElem]
    intro i j hi hj hij
    rw [List.disjoint_left]
    intro a ha1 ha2
    obtain ⟨x, hx, rfl⟩ := List.mem_map.1 ha1
    obtain ⟨y, hy, hxy⟩ := List.mem_map.1 ha2
    have h1 := (hw i _ (List.getElem?_eq_getElem hi)).2 x hx
    have h2 := (hw j _ (List.getElem?_eq_getElem hj)).2 y hy
    rw [hxy, h1] at h2
    omega

theorem mem_entries {t : threadsafe_lookup_table Key Value} (x : Key × Value) :
    x ∈ t.entries ↔
      ∃ (i : Nat) (b : bucket_type Key Value), t.buckets[i]? = some b ∧ x ∈ b.data := by
  simp only [entries, List.mem_flatten, List.mem_map]
  constructor
  · rintro ⟨l, ⟨b, hb, rfl⟩, hx⟩
    obtain ⟨i, hi⟩ := List.getElem?_of_mem hb
    exact ⟨i, b, hi, hx⟩
  · rintro ⟨i, b, hi, hx⟩
    exact ⟨_, ⟨b, List.getElem?_mem hi, rfl⟩, hx⟩

variable [LinearOrder Key]

theorem mem_map_insert (item : Key × Value) (res : List (Key × Value)) (x : Key × Value)
    (h : x ∈ map_insert item res) : x ∈ res ∨ x = item := by
  induction res with
  | nil => simpa [map_insert] using h
  | cons e es ih =>
    simp only [map_insert] at h
    split at h
    · simp only [List.mem_cons] at h ⊢
      tauto
    · split at h
      · simp only [List.mem_cons] at h ⊢
        rcases h with h | h
        · exact Or.inl (Or.inl h)
        · rcases ih h with h1 | h1
          · exact Or.inl (Or.inr h1)
          · exact Or.inr h1
      · exact Or.inl h

theorem mem_map_insert_of_new (item : Key × Value) (res : List (Key × Value))
    (hnew : ∀ e ∈ res, e.1 ≠ item.1) (x : Key × Value) :
    x ∈ map_insert item res ↔ x ∈ res ∨ x = item := by
  induction res with
  | nil => simp [map_insert]
  | cons e es ih =>
    have he : e.1 ≠ item.1 := hnew e (by simp)
    have ih1 := ih (fun e1 h1 => hnew e1 (by simp [h1]))
    simp only [map_insert]
    split
    · simp only [List.mem_cons]
      tauto
    · rename_i h1
      have h2 : e.1 < item.1 := lt_of_le_of_ne (not_lt.1 h1) he
      simp only [h2, if_true, List.mem_cons, ih1]
      tauto

theorem map_insert_sorted (item : Key × Value) (res : List (Key × Value))
    (hs : res.Pairwise (fun a b => a.1 < b.1)) :
    (map_insert item res).Pairwise (fun a b => a.1 < b.1) := by
  induction res with
  | nil => simp [map_insert]
  | cons e es ih =>
    rw [List.pairwise_cons] at hs
    simp only [map_insert]
    split
    · rename_i h1
      rw [List.pairwise_cons, List.pairwise_cons]
      refine ⟨?_, hs⟩
      intro y hy
      rcases List.mem_cons.1 hy with rfl | hy
      · exact h1
      · exact lt_trans h1 (hs.1 y hy)
    · split
      · rename_i h1 h2
        rw [List.pairwise_cons]
        refine ⟨?_, ih hs.2⟩
        intro y hy
        rcases mem_map_insert item es y hy with h3 | rfl
        · exact hs.1 y h3
        · exact h2
      · rw [List.pairwise_cons]
        exact hs

theorem foldl_map_insert (l : List (Key × Value)) :
    ∀ res : List (Key × Value), res.Pairwise (fun a b => a.1 < b.1) →
      (∀ e ∈ res, ∀ y ∈ l, e.1 ≠ y.1) → (l.map Prod.fst).Nodup →
      (l.foldl (fun res1 it => map_insert it res1) res).Pairwise (fun a b => a.1 < b.1) ∧
      ∀ x, x ∈ l.foldl (fun res1 it => map_insert it res1) res ↔ x ∈ res ∨ x ∈ l := by
  induction l with
  | nil =>
    intro res hs _ _
    simp [hs]
  | cons it l ih =>
    intro res hs hd hn
    rw [List.map_cons, List.nodup_cons] at hn
    have hnew : ∀ e ∈ res, e.1 ≠ it.1 := fun e he => hd e he it (by simp)
    have hm := mem_map_insert_of_new it res hnew
    have hd1 : ∀ e ∈ map_insert it res, ∀ y ∈ l, e.1 ≠ y.1 := by
      intro e he y hy
      rcases (hm e).1 he with h1 | rfl
      · exact hd e h1 y (by simp [hy])
      · intro h2
        exact hn.1 (List.mem_map.2 ⟨y, hy, h2.symm⟩)
    obtain ⟨h1, h2⟩ := ih (map_insert it res) (map_insert_sorted it res hs) hd1 hn.2
    refine ⟨by simpa using h1, ?_⟩
    intro x
    simp only [List.foldl_cons, h2, hm, List.mem_cons]
    tauto

theorem get_map_eq (t : threadsafe_lookup_table Key Value) :
    t.get_map = t.entries.foldl (fun res1 it => map_insert it res1) [] := by
  simp only [get_map, entries, List.foldl_flatten, List.foldl_map]

end get_map_lemmas

namespace bucket_type

variable {Key Value : Type} [DecidableEq Key]

theorem value_for_of_mem (b : bucket_type Key Value) (key : Key) (v d : Value)
    (hn : (b.data.map Prod.fst).Nodup) (hm : (key, v) ∈ b.data) :
    b.value_for key d = .ok v := by
  have hlt : b.find_entry_for key < b.data.length :=
    find_if_lt_of_mem _ _ (key, v) hm (by simp)
  have hk := at_find_entry_for b key _ (List.getElem?_eq_getElem hlt)
  have he : b.data[b.find_entry_for key] = (key, v) :=
    List.inj_on_of_nodup_map hn (List.getElem_mem _) hm hk
  rw [bucket_value_for_eq, List.getElem?_eq_getElem hlt, he]

end bucket_type

end threadsafe_lookup_table

namespace threadsafe_queue

variable {T : Type}

theorem chain_unique (q : threadsafe_queue T) (xs : List T) :
    ∀ (ys : List T) (a : Nat), chain q a xs → chain q a ys → xs = ys := by
  induction xs with
  | nil =>
    intro ys a h1 h2
    cases ys with
    | nil => rfl
    | cons y ys =>
      obtain ⟨-, e1⟩ := h1
      obtain ⟨b, e2, -⟩ := h2
      rw [e1] at e2
      simp at e2
  | cons x xs ih =>
    intro ys a h1 h2
    cases ys with
    | nil =>
      obtain ⟨b, e1, -⟩ := h1
      obtain ⟨-, e2⟩ := h2
      rw [e1] at e2
      simp at e2
    | cons y ys =>
      obtain ⟨b, e1, c1⟩ := h1
      obtain ⟨b2, e2, c2⟩ := h2
      rw [e1] at e2
      simp only [Option.some.injEq, node.mk.injEq] at e2
      obtain ⟨rfl, rfl⟩ := e2
      rw [ih ys b c1 c2]

theorem chain_tail (q : threadsafe_queue T) (xs : List T) :
    ∀ a, chain q a xs →
      ∃ t, q.tail = some t ∧ q.store[t]? = some (some { data := none, next := none }) := by
  induction xs with
  | nil =>
    intro a h
    exact ⟨a, h.1, h.2⟩
  | cons x xs ih =>
    intro a h
    obtain ⟨b, -, c⟩ := h
    exact ih b c

/-- A store cell that no chain of length at most that of `xs` starts from can
be overwritten without disturbing the chain `xs`. -/
theorem chain_set (q q1 : threadsafe_queue T) (c : Nat) (v : Option (node T))
    (ht : q1.tail = q.tail) (hs : q1.store = q.store.set c v) (xs : List T) :
    ∀ a, chain q a xs → (∀ zs : List T, zs.length ≤ xs.length → ¬ chain q c zs) →
      chain q1 a xs := by
  induction xs with
  | nil =>
    intro a h hc
    have hne : c ≠ a := by
      rintro rfl
      exact hc [] (le_refl _) h
    refine ⟨by rw [ht]; exact h.1, ?_⟩
    rw [hs, List.getElem?_set_ne hne]
    exact h.2
  | cons x xs ih =>
    intro a h hc
    have hne : c ≠ a := by
      rintro rfl
      exact hc (x :: xs) (le_refl _) h
    obtain ⟨b, e, hb⟩ := h
    refine ⟨b, ?_, ih b hb (fun zs hz => hc zs (by simp; omega))⟩
    rw [hs, List.getElem?_set_ne hne]
    exact e

theorem chain_push (q : threadsafe_queue T) (t : Nat) (hd : Option Nat) (v : T)
    (ht : q.tail = some t) (xs : List T) :
    ∀ a, chain q a xs →
      chain { store := (q.store ++ [some ({ data := none, next := none } : node T)]).set t
                (some { data := some v, next := some q.store.length }),
              head := hd, tail := some q.store.length } a (xs ++ [v]) := by
  induction xs with
  | nil =>
    intro a h
    obtain ⟨h1, h2⟩ := h
    rw [ht] at h1
    cases h1
    have hlt : t < q.store.length := (List.getElem?_eq_some.1 h2).1
    refine ⟨q.store.length, ?_, rfl, ?_⟩
    · simp only [List.getElem?_set, List.length_append, List.length_singleton]
      simp [hlt]
      omega
    · simp only [List.getElem?_set]
      rw [if_neg (by omega), List.getElem?_append_right (le_refl _)]
      simp
  | cons x xs ih =>
    intro a h
    obtain ⟨b, e, hb⟩ := h
    obtain ⟨t1, ht1, et⟩ := chain_tail q xs b hb
    rw [ht] at ht1
    cases ht1
    have hne : t ≠ a := by
      rintro rfl
      rw [e] at et
      simp at et
    have hlt : a < q.store.length := (List.getElem?_eq_some.1 e).1
    refine ⟨b, ?_, ih b hb⟩
    rw [List.getElem?_set_ne hne, List.getElem?_append_left hlt]
    exact e

end threadsafe_queue

namespace threadsafe_queue

variable {T : Type}

theorem wait_and_pop_eq_try_pop (q : threadsafe_queue T) (h : q.head ≠ q.get_tail) :
    q.wait_and_pop = q.try_pop := by
  simp only [wait_and_pop, wait_pop_head, wait_for_data, try_pop, try_pop_head, h, ne_eq,
    not_false_eq_true, if_true, if_false]
  cases q.pop_head with
  | error e => rfl
  | ok r => rfl

theorem pop_head_not_blocked (q : threadsafe_queue T) :
    q.pop_head ≠ .error .blocks_forever := by
  unfold pop_head
  split
  · simp
  · split <;> simp

theorem structural_invariant_new :
    structural_invariant (new : threadsafe_queue T) [] :=
  ⟨0, rfl, rfl, rfl⟩

theorem structural_invariant_head_tail {q : threadsafe_queue T} {xs : List T}
    (hq : structural_invariant q xs) : q.head = q.get_tail ↔ xs = [] := by
  obtain ⟨h, hh, hc⟩ := hq
  cases xs with
  | nil =>
    simp [get_tail, hh, hc.1]
  | cons x xs =>
    obtain ⟨b, e, hb⟩ := hc
    obtain ⟨t, ht, et⟩ := chain_tail q xs b hb
    simp only [get_tail, hh, ht, Option.some.injEq, reduceCtorEq, iff_false]
    rintro rfl
    rw [e] at et
    simp at et

theorem structural_invariant_push {q : threadsafe_queue T} {xs : List T}
    (hq : structural_invariant q xs) (v : T) :
    ∃ q1, q.push v = .ok q1 ∧ structural_invariant q1 (xs ++ [v]) := by
  obtain ⟨h, hh, hc⟩ := hq
  obtain ⟨t, ht, et⟩ := chain_tail q xs h hc
  have hlt : t < q.store.length := (List.getElem?_eq_some.1 et).1
  have e1 : (q.store ++ [some ({ data := none, next := none } : node T)])[t]?
      = some (some { data := none, next := none }) := by
    rw [List.getElem?_append_left hlt]; exact et
  have hp : q.push v = .ok
      { store := (q.store ++ [some ({ data := none, next := none } : node T)]).set t
          (some { data := some v, next := some q.store.length }),
        head := q.head, tail := some q.store.length } := by
    simp only [push, ht, e1]
  exact ⟨_, hp, h, hh, chain_push q t q.head v ht xs h hc⟩

theorem structural_invariant_try_pop {q : threadsafe_queue T} {xs : List T}
    (hq : structural_invariant q xs) :
    ∃ q1, q.try_pop = .ok (xs.head?, q1) ∧ structural_invariant q1 xs.tail := by
  have hht := structural_invariant_head_tail hq
  obtain ⟨h, hh, hc⟩ := hq
  cases xs with
  | nil =>
    refine ⟨q, ?_, h, hh, hc⟩
    simp [try_pop, try_pop_head, hht.2 rfl]
  | cons x xs =>
    have hne : q.head ≠ q.get_tail := fun e => by simpa using hht.1 e
    have hc0 := hc
    obtain ⟨b, e, hb⟩ := hc
    have hlt : h < q.store.length := (List.getElem?_eq_some.1 e).1
    have hne1 : ¬ (some h = q.get_tail) := by rw [← hh]; exact hne
    refine ⟨{ store := q.store.set h none, head := some b, tail := q.tail }, ?_, b, rfl, ?_⟩
    · simp [try_pop, try_pop_head, hne1, pop_head, hh, e, hlt]
    · refine chain_set q { store := q.store.set h none, head := some b, tail := q.tail }
        h none rfl rfl xs b hb ?_
      intro zs hz hcz
      have := chain_unique q zs (x :: xs) h hcz hc0
      rw [this] at hz
      simp at hz

theorem structural_invariant_wait_and_pop {q : threadsafe_queue T} {xs : List T}
    (hq : structural_invariant q xs) :
    (xs = [] ∧ q.wait_and_pop = .error .blocks_forever) ∨
    ∃ q1, q.wait_and_pop = .ok (xs.head?, q1) ∧ structural_invariant q1 xs.tail := by
  have hht := structural_invariant_head_tail hq
  cases xs with
  | nil =>
    left
    refine ⟨rfl, ?_⟩
    simp [wait_and_pop, wait_pop_head, wait_for_data, hht.2 rfl]
  | cons x xs =>
    right
    have hne : q.head ≠ q.get_tail := fun e => by simpa using hht.1 e
    rw [wait_and_pop_eq_try_pop q hne]
    exact structural_invariant_try_pop hq

end threadsafe_queue

namespace threadsafe_queue

variable {T : Type}

theorem chain_of_cells (q : threadsafe_queue T) (xs : List T) :
    ∀ a, q.tail = some (a + xs.length) →
      q.store[a + xs.length]? = some (some { data := none, next := none }) →
      (∀ i x, xs[i]? = some x →
        q.store[a + i]? = some (some { data := some x, next := some (a + i + 1) })) →
      chain q a xs := by
  induction xs with
  | nil =>
    intro a ht hs _
    exact ⟨by simpa using ht, by simpa using hs⟩
  | cons x xs ih =>
    intro a ht hs hc
    refine ⟨a + 1, by simpa using hc 0 x (by simp), ih (a + 1) ?_ ?_ ?_⟩
    · rw [ht]; simp; omega
    · rw [← hs]; congr 1; simp; omega
    · intro i y hy
      have e := hc (i + 1) y (by simpa using hy)
      have a1 : a + 1 + i = a + (i + 1) := by omega
      rw [a1]; exact e

theorem holds_structural_invariant {q : threadsafe_queue T} {h : Nat} {xs : List T}
    (hq : holds q h xs) : structural_invariant q xs := by
  obtain ⟨hh, ht, -, hs, hc⟩ := hq
  exact ⟨h, hh, chain_of_cells q xs h ht hs hc⟩

end threadsafe_queue

namespace single_lock_queue

variable {T : Type}

theorem results_total (cs : List (threadsafe_queue.call T)) :
    ∀ q : single_lock_queue T, threadsafe_queue.call.wait_and_pop ∉ cs →
      ∃ rs, q.results cs = .ok rs := by
  induction cs with
  | nil => intro q _; exact ⟨[], rfl⟩
  | cons c cs ih =>
    intro q hn
    have hn1 : threadsafe_queue.call.wait_and_pop ∉ cs := fun h => hn (by simp [h])
    cases c with
    | push v => exact ih (q.push v) hn1
    | try_pop =>
      obtain ⟨rs, e⟩ := ih (q.try_pop).2 hn1
      exact ⟨(q.try_pop).1 :: rs, by simp only [results, e]⟩
    | wait_and_pop => exact absurd (by simp) hn

theorem results_prefix (cs : List (threadsafe_queue.call T)) :
    ∀ (q : single_lock_queue T) (rs : List (Option T)), q.results cs = .ok rs →
      rs.reduceOption <+: q.data_queue ++ threadsafe_queue.pushed cs := by
  induction cs with
  | nil =>
    intro q rs e
    simp only [results, Except.ok.injEq] at e
    subst e
    simp
  | cons c cs ih =>
    intro q rs e
    cases c with
    | push v =>
      have := ih (q.push v) rs e
      simpa [push, threadsafe_queue.pushed] using this
    | try_pop =>
      simp only [results] at e
      cases e1 : results (q.try_pop).2 cs with
      | error err => rw [e1] at e; cases e
      | ok rs1 =>
        rw [e1] at e
        simp only [Except.ok.injEq] at e
        subst e
        have h1 := ih _ rs1 e1
        cases hq : q.data_queue with
        | nil =>
          simp only [try_pop, hq] at h1 ⊢
          simpa [threadsafe_queue.pushed, List.reduceOption_cons_of_none] using h1
        | cons x rest =>
          simp only [try_pop, hq] at h1 ⊢
          simpa [threadsafe_queue.pushed, List.reduceOption_cons_of_some,
            List.cons_prefix_cons] using h1
    | wait_and_pop =>
      simp only [results] at e
      cases hq : q.data_queue with
      | nil =>
        simp only [wait_and_pop, hq] at e
        cases e
      | cons x rest =>
        simp only [wait_and_pop, hq] at e
        cases e1 : results ({ data_queue := rest } : single_lock_queue T) cs with
        | error err => rw [e1] at e; cases e
        | ok rs1 =>
          rw [e1] at e
          simp only [Except.ok.injEq] at e
          subst e
          have h1 := ih _ rs1 e1
          simpa [threadsafe_queue.pushed, List.reduceOption_cons_of_some,
            List.cons_prefix_cons] using h1

end single_lock_queue

namespace threadsafe_queue

variable {T : Type}

/-- A queue that satisfies the structural invariant with the elements `xs`
answers every sequence of calls as the single-lock queue holding `xs` does. -/
theorem results_eq_single_lock (cs : List (call T)) :
    ∀ (q : threadsafe_queue T) (xs : List T), structural_invariant q xs →
      q.results cs = ({ data_queue := xs } : single_lock_queue T).results cs := by
  induction cs with
  | nil => intro q xs _; rfl
  | cons c cs ih =>
    intro q xs hq
    cases c with
    | push v =>
      obtain ⟨q1, e1, h1⟩ := structural_invariant_push hq v
      simp only [results, e1, single_lock_queue.results, single_lock_queue.push]
      exact ih q1 _ h1
    | try_pop =>
      obtain ⟨q1, e1, h1⟩ := structural_invariant_try_pop hq
      have e2 := ih q1 _ h1
      cases xs with
      | nil =>
        simp only [results, e1, single_lock_queue.results, single_lock_queue.try_pop]
        simp only [List.tail_nil] at e2
        rw [e2]
        rfl
      | cons x xs =>
        simp only [results, e1, single_lock_queue.results, single_lock_queue.try_pop]
        simp only [List.tail_cons] at e2
        rw [e2]
        rfl
    | wait_and_pop =>
      rcases structural_invariant_wait_and_pop hq with ⟨rfl, e1⟩ | ⟨q1, e1, h1⟩
      · simp only [results, e1, single_lock_queue.results, single_lock_queue.wait_and_pop]
      · have e2 := ih q1 _ h1
        cases xs with
        | nil =>
          have := structural_invariant_wait_and_pop hq
          rcases this with ⟨-, e3⟩ | ⟨q2, e3, -⟩
          · rw [e1] at e3; cases e3
          · have e4 : q.wait_and_pop = .error .blocks_forever := by
              have hht := structural_invariant_head_tail hq
              simp [wait_and_pop, wait_pop_head, wait_for_data, hht.2 rfl]
            rw [e1] at e4; cases e4
        | cons x xs =>
          simp only [results, e1, single_lock_queue.results, single_lock_queue.wait_and_pop]
          simp only [List.tail_cons] at e2
          rw [e2]
          rfl

end threadsafe_queue

namespace threadsafe_lookup_table

theorem getElem?_find_if {α : Type} (pred : α → Bool) (l : List α) :
    l[find_if pred l]? = l.find? pred := by
  induction l with
  | nil => simp [find_if]
  | cons x xs ih =>
    by_cases hx : pred x = true
    · simp [find_if, hx]
    · simp [find_if, hx, ih]

namespace bucket_type

variable {Key Value : Type} [DecidableEq Key]

theorem value_for_find (b : bucket_type Key Value) (key : Key) (d : Value) :
    b.value_for key d = .ok (match b.data.find? (fun item => decide (item.1 = key)) with
      | some item => item.2
      | none => d) := by
  rw [bucket_value_for_eq, find_entry_for, getElem?_find_if]

/-- The first entry for a key is the same in two lists that differ only in
entries for another key at one place. -/
theorem find_other_key (l1 l2 : List (Key × Value)) (mid1 mid2 : List (Key × Value))
    (key : Key) (h1 : ∀ item ∈ mid1, item.1 ≠ key) (h2 : ∀ item ∈ mid2, item.1 ≠ key) :
    (l1 ++ mid1 ++ l2).find? (fun item => decide (item.1 = key))
      = (l1 ++ mid2 ++ l2).find? (fun item => decide (item.1 = key)) := by
  have e1 : mid1.find? (fun item => decide (item.1 = key)) = none := by
    rw [List.find?_eq_none]
    intro x hx
    simpa using h1 x hx
  have e2 : mid2.find? (fun item => decide (item.1 = key)) = none := by
    rw [List.find?_eq_none]
    intro x hx
    simpa using h2 x hx
  simp only [List.find?_append, e1, e2]

theorem value_for_other_after_add (b : bucket_type Key Value) (k k1 : Key) (v d : Value)
    (hne : k1 ≠ k) :
    ({ data := b.data.take (b.find_entry_for k) ++
        (k, v) :: b.data.drop (b.find_entry_for k + 1) } : bucket_type Key Value).value_for k1 d
      = b.value_for k1 d := by
  rw [value_for_find, value_for_find]
  congr 1
  have key : (b.data.take (b.find_entry_for k) ++
        (k, v) :: b.data.drop (b.find_entry_for k + 1)).find?
          (fun item => decide (item.1 = k1))
      = b.data.find? (fun item => decide (item.1 = k1)) := by
    rcases Nat.lt_or_ge (b.find_entry_for k) b.data.length with hlt | hge
    · obtain ⟨v0, e⟩ := data_split b k hlt
      conv_rhs => rw [e]
      have := find_other_key (b.data.take (b.find_entry_for k))
        (b.data.drop (b.find_entry_for k + 1)) [(k, v)] [(k, v0)] k1
        (by simpa using Ne.symm hne) (by simpa using Ne.symm hne)
      simpa using this
    · rw [List.take_of_length_le hge, List.drop_of_length_le (by omega)]
      have := find_other_key b.data [] [(k, v)] [] k1
        (by simpa using Ne.symm hne) (by simp)
      simpa using this
  simp only [key]

theorem value_for_other_after_remove (b : bucket_type Key Value) (k k1 : Key) (d : Value)
    (hne : k1 ≠ k) :
    ({ data := b.data.take (b.find_entry_for k) ++
        b.data.drop (b.find_entry_for k + 1) } : bucket_type Key Value).value_for k1 d
      = b.value_for k1 d := by
  rw [value_for_find, value_for_find]
  congr 1
  have key : (b.data.take (b.find_entry_for k) ++ b.data.drop (b.find_entry_for k + 1)).find?
          (fun item => decide (item.1 = k1))
      = b.data.find? (fun item => decide (item.1 = k1)) := by
    rcases Nat.lt_or_ge (b.find_entry_for k) b.data.length with hlt | hge
    · obtain ⟨v0, e⟩ := data_split b k hlt
      conv_rhs => rw [e]
      have := find_other_key (b.data.take (b.find_entry_for k))
        (b.data.drop (b.find_entry_for k + 1)) [] [(k, v0)] k1
        (by simp) (by simpa using Ne.symm hne)
      simpa using this
    · rw [List.take_of_length_le hge, List.drop_of_length_le (by omega)]
      simp
  simp only [key]

end bucket_type

end threadsafe_lookup_table

/-! ## The claims -/

/-- C1. For every finite sequence of values pushed with `push` onto a freshly
constructed queue before any pop, as many successive `try_pop` calls return
exactly these values in push order, each one non-empty, and the queue is empty
afterwards. -/
theorem threadsafe_queue.fifo_push_all_try_pop_n (T : Type) (ps : List T) :
    ∃ q q1, (threadsafe_queue.new : threadsafe_queue T).push_all ps = .ok q ∧
      q.try_pop_n ps.length = .ok (ps.map some, q1) ∧ q1.empty = true := by
  obtain ⟨q, e, hq⟩ := threadsafe_queue.holds_push_all ps threadsafe_queue.holds_new
  obtain ⟨q1, e1, h1⟩ := threadsafe_queue.holds_try_pop_n (by simpa using hq)
  exact ⟨q, q1, e, e1, (threadsafe_queue.holds_empty h1).2 rfl⟩

/-- C2. For every sequence of values inserted with `push_front`, first to last,
into an empty list, a following `for_each` returns, and has called the visitor
once on each value, the last inserted first: the visitor's final state is the
fold of the visitor over the reversed sequence, and the recording visitor ends
with exactly the reversed sequence, the list being left as it was. -/
theorem threadsafe_list.for_each_after_push_front (T : Type) (vs : List T) :
    (∀ (σ : Type) (f : T → σ → T × σ) (s : σ), ∃ l1,
      ((threadsafe_list.new : threadsafe_list T).push_front_all vs).for_each f s
        = .ok (l1, vs.reverse.foldl (fun s1 x => (f x s1).2) s)) ∧
    ((threadsafe_list.new : threadsafe_list T).push_front_all vs).for_each
        threadsafe_list.record []
      = .ok ((threadsafe_list.new : threadsafe_list T).push_front_all vs, vs.reverse) := by
  have hp : ((threadsafe_list.new : threadsafe_list T).push_front_all vs).head.next.payloads
      = vs.reverse.map some := by
    have := threadsafe_list.payloads_push_front_all vs (threadsafe_list.new : threadsafe_list T)
    simpa [threadsafe_list.payloads, threadsafe_list.new,
      threadsafe_list.node_ptr.payloads] using this
  constructor
  · intro σ f s
    obtain ⟨n1, ys, e, -⟩ := threadsafe_list.for_each_loop_payloads f vs.reverse _ s hp
    generalize (threadsafe_list.new : threadsafe_list T).push_front_all vs = l at e
    exact ⟨{ head := { data := l.head.data, next := n1 } },
      by simp only [threadsafe_list.for_each, e]⟩
  · have e := threadsafe_list.for_each_loop_record vs.reverse _ [] hp
    simp only [threadsafe_list.for_each, e, List.nil_append]

/-- C3. For every bucket, key `k`, value `v` and default `d`,
`add_or_update_mapping(k, v)` returns and `value_for(k, d)` then returns `v`,
whether or not `k` was present and whatever `d` is; the same holds for the
table calls, which go through `get_bucket`, on every table that has at least
one bucket. -/
theorem threadsafe_lookup_table.value_for_after_add_or_update_mapping
    (Key Value : Type) [DecidableEq Key] (k : Key) (v d : Value) :
    (∀ b : threadsafe_lookup_table.bucket_type Key Value,
      ∃ b1, b.add_or_update_mapping k v = .ok b1 ∧ b1.value_for k d = .ok v) ∧
    (∀ t : threadsafe_lookup_table Key Value, 0 < t.buckets.length →
      ∃ t1, t.add_or_update_mapping k v = .ok t1 ∧ t1.value_for k d = .ok v) := by
  constructor
  · intro b
    exact ⟨_, threadsafe_lookup_table.bucket_type.bucket_add_or_update_mapping_eq b k v,
      threadsafe_lookup_table.bucket_type.value_for_of_first _ _ k v d
        (threadsafe_lookup_table.bucket_type.before_find_entry_for b k)⟩
  · intro t hpos
    obtain ⟨b, hb⟩ := (threadsafe_lookup_table.get_bucket_eq t k hpos).2
    refine ⟨_, threadsafe_lookup_table.add_or_update_mapping_eq t k v hpos b hb, ?_⟩
    rw [threadsafe_lookup_table.value_for_set t k d hpos]
    exact threadsafe_lookup_table.bucket_type.value_for_of_first _ _ k v d
      (threadsafe_lookup_table.bucket_type.before_find_entry_for b k)

/-- C3, at the table with three buckets and the identity hash, freshly
constructed: `add_or_update_mapping(4, 1)` puts the entry in bucket 1 and
`value_for(4, 0)` returns 1. -/
theorem threadsafe_lookup_table.value_for_after_add_or_update_mapping_witness :
    0 < (threadsafe_lookup_table.new 3 (fun k : Nat => k) :
      threadsafe_lookup_table Nat Nat).buckets.length ∧
    ∃ t1, (threadsafe_lookup_table.new 3 (fun k : Nat => k) :
        threadsafe_lookup_table Nat Nat).add_or_update_mapping 4 1 = .ok t1 ∧
      t1.value_for 4 0 = .ok 1 :=
  ⟨by decide,
   (threadsafe_lookup_table.value_for_after_add_or_update_mapping Nat Nat 4 1 0).2 _
     (by decide)⟩

/-- C3, as stated for every map state, fails at the table constructed with no
bucket (identity hash): `get_bucket` takes a remainder modulo 0, so
`add_or_update_mapping(4, 1)` has undefined behaviour and returns no table on
which `value_for(4, 0)` could return 1. -/
theorem threadsafe_lookup_table.value_for_after_add_or_update_mapping_counterexample :
    (threadsafe_lookup_table.new 0 (fun k : Nat => k) : threadsafe_lookup_table Nat Nat).add_or_update_mapping 4 1 = .error .undefined_behaviour ∧
    ¬ ∃ t1, (threadsafe_lookup_table.new 0 (fun k : Nat => k) : threadsafe_lookup_table Nat Nat).add_or_update_mapping 4 1 = .ok t1 ∧ t1.value_for 4 0 = .ok 1 := by
  refine ⟨rfl, ?_⟩
  rintro ⟨t1, h, -⟩
  change Except.error fault.undefined_behaviour = Except.ok t1 at h
  cases h

/-- C4. For every table a thread can reach from a freshly constructed one with
`add_or_update_mapping` and `remove_mapping`, and that has at least one bucket,
every key `k` and default `d`: `remove_mapping(k)` returns and `value_for(k, d)`
then returns `d`. -/
theorem threadsafe_lookup_table.value_for_after_remove_mapping
    (Key Value : Type) [DecidableEq Key] (t : threadsafe_lookup_table Key Value)
    (hr : threadsafe_lookup_table.reachable t) (hpos : 0 < t.buckets.length)
    (k : Key) (d : Value) :
    ∃ t1, t.remove_mapping k = .ok t1 ∧ t1.value_for k d = .ok d := by
  obtain ⟨b, hb⟩ := (threadsafe_lookup_table.get_bucket_eq t k hpos).2
  refine ⟨_, threadsafe_lookup_table.remove_mapping_eq t k hpos b hb, ?_⟩
  have hw := threadsafe_lookup_table.reachable_well_formed hr
  rw [threadsafe_lookup_table.value_for_set t k d hpos]
  exact threadsafe_lookup_table.bucket_type.value_for_of_absent _ k d
    (threadsafe_lookup_table.bucket_type.absent_after_remove b k (hw _ b hb).1)

/-- C4, at the table reached from three empty buckets (identity hash) by
`add_or_update_mapping(4, 1)` and `add_or_update_mapping(7, 2)`, both in
bucket 1: `remove_mapping(4)` then `value_for(4, 0)` returns 0. -/
theorem threadsafe_lookup_table.value_for_after_remove_mapping_witness :
    threadsafe_lookup_table.reachable
      ({ buckets := [{ data := [] }, { data := [(4, 1), (7, 2)] }, { data := [] }],
         hasher := fun k : Nat => k } : threadsafe_lookup_table Nat Nat) ∧
    0 < ({ buckets := [{ data := [] }, { data := [(4, 1), (7, 2)] }, { data := [] }],
           hasher := fun k : Nat => k } : threadsafe_lookup_table Nat Nat).buckets.length ∧
    ∃ t1, ({ buckets := [{ data := [] }, { data := [(4, 1), (7, 2)] }, { data := [] }],
             hasher := fun k : Nat => k } :
        threadsafe_lookup_table Nat Nat).remove_mapping 4 = .ok t1 ∧
      t1.value_for 4 0 = .ok 0 :=
  ⟨.add_or_update_mapping 7 2
      (.add_or_update_mapping (t := threadsafe_lookup_table.new 3 (fun k : Nat => k)) 4 1
        (.new 3 _) rfl) rfl,
   by decide,
   threadsafe_lookup_table.value_for_after_remove_mapping Nat Nat _
    (.add_or_update_mapping 7 2
      (.add_or_update_mapping (t := threadsafe_lookup_table.new 3 (fun k : Nat => k)) 4 1
        (.new 3 _) rfl) rfl)
    (by decide) 4 0⟩

/-- C4, as stated for every reachable map state, fails at the table constructed
with no bucket (identity hash), which is reachable with no call at all:
`remove_mapping(4)` has undefined behaviour there and returns no table on which
`value_for(4, 0)` could return the default. -/
theorem threadsafe_lookup_table.value_for_after_remove_mapping_counterexample :
    threadsafe_lookup_table.reachable (threadsafe_lookup_table.new 0 (fun k : Nat => k) : threadsafe_lookup_table Nat Nat) ∧
    (threadsafe_lookup_table.new 0 (fun k : Nat => k) : threadsafe_lookup_table Nat Nat).remove_mapping 4 = .error .undefined_behaviour ∧
    ¬ ∃ t1, (threadsafe_lookup_table.new 0 (fun k : Nat => k) : threadsafe_lookup_table Nat Nat).remove_mapping 4 = .ok t1 ∧ t1.value_for 4 0 = .ok 0 := by
  refine ⟨.new 0 _, rfl, ?_⟩
  rintro ⟨t1, h, -⟩
  change Except.error fault.undefined_behaviour = Except.ok t1 at h
  cases h

/-- C5. For every list built through the public interface and every predicate
`p`, `find_first_if(p)` returns the payload of the first node, in head-to-tail
order, whose payload satisfies `p`; it returns the empty handle if and only if
no linked node's payload satisfies `p`. -/
theorem threadsafe_list.find_first_if_first_match (T : Type) (l : threadsafe_list T)
    (hr : threadsafe_list.reachable l) (p : T → Bool) :
    ∃ xs : List T, l.payloads = xs.map some ∧
      l.find_first_if p = .ok (xs.find? p) ∧
      (l.find_first_if p = .ok none ↔ ∀ x ∈ xs, p x = false) := by
  obtain ⟨xs, hx⟩ := threadsafe_list.reachable_payloads hr
  have e : l.find_first_if p = .ok (xs.find? p) :=
    threadsafe_list.find_first_if_loop_find p xs _ hx
  refine ⟨xs, hx, e, ?_⟩
  rw [e]
  simp [List.find?_eq_none]

/-- C5, at the list built by `push_front(1)`, `push_front(4)`, `push_front(6)`,
`push_front(3)`, with the predicate "is even": the first match is 6. -/
theorem threadsafe_list.find_first_if_first_match_witness :
    threadsafe_list.reachable
      ((threadsafe_list.new : threadsafe_list Nat).push_front_all [1, 4, 6, 3]) ∧
    ∃ xs : List Nat,
      ((threadsafe_list.new : threadsafe_list Nat).push_front_all [1, 4, 6, 3]).payloads
        = xs.map some ∧
      ((threadsafe_list.new : threadsafe_list Nat).push_front_all [1, 4, 6, 3]).find_first_if
        (fun x => x % 2 == 0) = .ok (xs.find? (fun x => x % 2 == 0)) ∧
      (((threadsafe_list.new : threadsafe_list Nat).push_front_all [1, 4, 6, 3]).find_first_if
        (fun x => x % 2 == 0) = .ok none ↔ ∀ x ∈ xs, (x % 2 == 0) = false) :=
  ⟨.push_front 3 (.push_front 6 (.push_front 4 (.push_front 1 .new))),
   threadsafe_list.find_first_if_first_match Nat _
    (.push_front 3 (.push_front 6 (.push_front 4 (.push_front 1 .new)))) _⟩

/-- C6. For every list built through the public interface and every predicate
`p`, a single `remove_if(p)` returns and leaves no linked node whose payload
satisfies `p`, so that a following `find_first_if(p)` returns the empty
handle. -/
theorem threadsafe_list.remove_if_leaves_no_match (T : Type) (l : threadsafe_list T)
    (hr : threadsafe_list.reachable l) (p : T → Bool) :
    ∃ (l1 : threadsafe_list T) (ys : List T), l.remove_if p = .ok l1 ∧
      l1.payloads = ys.map some ∧ (∀ y ∈ ys, p y = false) ∧
      l1.find_first_if p = .ok none := by
  obtain ⟨xs, hx⟩ := threadsafe_list.reachable_payloads hr
  obtain ⟨n1, e1, h1⟩ := threadsafe_list.remove_if_loop_filter p xs _ hx
  have hall : ∀ y ∈ xs.filter (fun x => !p x), p y = false := by
    intro y hy
    simpa using (List.mem_filter.1 hy).2
  refine ⟨{ head := { data := l.head.data, next := n1 } }, xs.filter (fun x => !p x),
    ?_, h1, hall, ?_⟩
  · simp only [threadsafe_list.remove_if, e1]
  · have e := threadsafe_list.find_first_if_loop_find p _ n1 h1
    simp only [threadsafe_list.find_first_if, e]
    congr 1
    simp [List.find?_eq_none]

/-- C6, at the list with payloads 2, 2, 3, 2, 1, 2 (a run of matching nodes at
the front and a matching last node), with the predicate "equals 2". -/
theorem threadsafe_list.remove_if_leaves_no_match_witness :
    threadsafe_list.reachable
      ((threadsafe_list.new : threadsafe_list Nat).push_front_all [2, 1, 2, 3, 2, 2]) ∧
    ∃ (l1 : threadsafe_list Nat) (ys : List Nat),
      ((threadsafe_list.new : threadsafe_list Nat).push_front_all [2, 1, 2, 3, 2, 2]).remove_if
        (fun x => x == 2) = .ok l1 ∧
      l1.payloads = ys.map some ∧ (∀ y ∈ ys, (y == 2) = false) ∧
      l1.find_first_if (fun x => x == 2) = .ok none :=
  ⟨.push_front 2 (.push_front 2 (.push_front 3 (.push_front 2 (.push_front 1
      (.push_front 2 .new))))),
   threadsafe_list.remove_if_leaves_no_match Nat _
    (.push_front 2 (.push_front 2 (.push_front 3 (.push_front 2 (.push_front 1
      (.push_front 2 .new)))))) _⟩

/-- C7. `try_pop` on a queue with `head == tail` returns the empty indicator and
leaves the queue as it was; on every queue a thread can reach, `try_pop` returns,
and its result is non-empty if and only if the queue was not empty. -/
theorem threadsafe_queue.try_pop_empty_iff (T : Type) :
    (∀ q : threadsafe_queue T, q.head = q.get_tail → q.try_pop = .ok (none, q)) ∧
    (∀ q : threadsafe_queue T, threadsafe_queue.reachable q →
      ∃ r q1, q.try_pop = .ok (r, q1) ∧ (r.isSome = true ↔ q.empty = false)) := by
  constructor
  · intro q hq
    simp [threadsafe_queue.try_pop, threadsafe_queue.try_pop_head, hq]
  · intro q hr
    obtain ⟨h, xs, hq⟩ := threadsafe_queue.reachable_holds hr
    cases xs with
    | nil =>
      refine ⟨none, q, threadsafe_queue.holds_try_pop_nil hq, ?_⟩
      simp [(threadsafe_queue.holds_empty hq).2 rfl]
    | cons x xs =>
      obtain ⟨q1, e1, -⟩ := threadsafe_queue.holds_try_pop_cons hq
      refine ⟨some x, q1, e1, ?_⟩
      have hne : q.empty ≠ true := fun he => by
        have := (threadsafe_queue.holds_empty hq).1 he
        cases this
      simpa using hne

/-- C7, at concrete queues: the fresh queue of naturals, and the queue a
`push(7)` leaves, on which `try_pop` returns a value. -/
theorem threadsafe_queue.try_pop_empty_iff_witness :
    ((threadsafe_queue.new : threadsafe_queue Nat).head
        = (threadsafe_queue.new : threadsafe_queue Nat).get_tail ∧
      (threadsafe_queue.new : threadsafe_queue Nat).try_pop
        = .ok (none, threadsafe_queue.new)) ∧
    (threadsafe_queue.reachable
        ({ store := [some { data := some 7, next := some 1 }, some { data := none, next := none }],
           head := some 0, tail := some 1 } : threadsafe_queue Nat) ∧
      ∃ r q1,
        (({ store := [some { data := some 7, next := some 1 }, some { data := none, next := none }],
            head := some 0, tail := some 1 } : threadsafe_queue Nat).try_pop = .ok (r, q1)) ∧
        (r.isSome = true ↔
          ({ store := [some { data := some 7, next := some 1 },
                       some { data := none, next := none }],
             head := some 0, tail := some 1 } : threadsafe_queue Nat).empty = false)) :=
  ⟨⟨rfl, (threadsafe_queue.try_pop_empty_iff Nat).1 threadsafe_queue.new rfl⟩,
   ⟨⟨[.push 7], _, rfl, rfl⟩,
    (threadsafe_queue.try_pop_empty_iff Nat).2 _ ⟨[.push 7], _, rfl, rfl⟩⟩⟩

/-- C8. A freshly constructed queue reports `empty() == true`; after one push it
reports false, and after the pop that drains it true again.  After any sequence
of calls of `push`, `try_pop` and `wait_and_pop` that return, `empty()` is true
if and only if as many pushes were made as pops returned a value; such a
sequence never has undefined behaviour, and without `wait_and_pop` it always
returns. -/
theorem threadsafe_queue.empty_iff_pushes_eq_pops (T : Type) :
    (threadsafe_queue.new : threadsafe_queue T).empty = true ∧
    (∀ v : T, ∃ q1 q2, (threadsafe_queue.new : threadsafe_queue T).push v = .ok q1 ∧
      q1.empty = false ∧ q1.try_pop = .ok (some v, q2) ∧ q2.empty = true) ∧
    (∀ cs : List (threadsafe_queue.call T),
      threadsafe_queue.run threadsafe_queue.fresh cs ≠ .error .undefined_behaviour ∧
      (threadsafe_queue.call.wait_and_pop ∉ cs →
        ∃ h, threadsafe_queue.run threadsafe_queue.fresh cs = .ok h) ∧
      ∀ h, threadsafe_queue.run threadsafe_queue.fresh cs = .ok h →
        (h.queue.empty = true ↔ h.pushes = h.pops)) := by
  refine ⟨rfl, ?_, ?_⟩
  · intro v
    obtain ⟨q1, e1, h1⟩ := threadsafe_queue.holds_push
      (threadsafe_queue.holds_new (T := T)) v
    simp only [List.nil_append] at h1
    obtain ⟨q2, e2, h2⟩ := threadsafe_queue.holds_try_pop_cons h1
    refine ⟨q1, q2, e1, ?_, e2, (threadsafe_queue.holds_empty h2).2 rfl⟩
    cases he : q1.empty with
    | false => rfl
    | true => cases (threadsafe_queue.holds_empty h1).1 he
  · intro cs
    have key := threadsafe_queue.run_holds cs
      (threadsafe_queue.fresh_holds (T := T)).1 threadsafe_queue.fresh_holds.2
    refine ⟨?_, ?_, ?_⟩
    · rcases key with ⟨-, e⟩ | ⟨h1, ys, e, -, -⟩
      · rw [e]; simp
      · rw [e]; simp
    · intro hn
      rcases key with ⟨hm, -⟩ | ⟨h1, ys, e, -, -⟩
      · exact absurd hm hn
      · exact ⟨h1, e⟩
    · intro h e
      rcases key with ⟨-, e2⟩ | ⟨h1, ys, e2, hq, hc⟩
      · rw [e] at e2; cases e2
      · rw [e] at e2; cases e2
        rw [threadsafe_queue.holds_empty hq, hc]
        constructor
        · intro hy; simp [hy]
        · intro hy
          have : ys.length = 0 := by omega
          exact List.length_eq_zero.1 this

/-- C8, at a concrete sequence of calls: two pushes and three `try_pop` calls,
the last of which finds the queue empty. -/
theorem threadsafe_queue.empty_iff_pushes_eq_pops_witness :
    threadsafe_queue.run (threadsafe_queue.fresh : threadsafe_queue.history Nat)
        [.push 1, .push 2, .try_pop, .try_pop, .try_pop]
      = .ok { queue := { store := [none, none, some { data := none, next := none }],
                         head := some 2, tail := some 2 },
              pushes := 2, pops := 2 } ∧
    (({ store := [none, none, some { data := none, next := none }],
        head := some 2, tail := some 2 } : threadsafe_queue Nat).empty = true ↔ 2 = 2) :=
  ⟨rfl, ((threadsafe_queue.empty_iff_pushes_eq_pops Nat).2.2
    [.push 1, .push 2, .try_pop, .try_pop, .try_pop]).2.2 _ rfl⟩

/-- C9. For every table a thread can reach from a freshly constructed one with
`add_or_update_mapping` and `remove_mapping`, `get_map` returns a mapping in
strictly ascending key order that holds exactly the entries of the buckets: it
maps `k` to `v` if and only if some bucket holds the entry `(k, v)`, which is so
if and only if `k` is present and `value_for(k, d)` returns `v`; and every key
of the snapshot is a key of the table. -/
theorem threadsafe_lookup_table.get_map_exact
    (Key Value : Type) [LinearOrder Key] (t : threadsafe_lookup_table Key Value)
    (hr : threadsafe_lookup_table.reachable t) :
    t.get_map.Pairwise (fun a b => a.1 < b.1) ∧
    (∀ k v, (k, v) ∈ t.get_map ↔
      ∃ (i : Nat) (b : threadsafe_lookup_table.bucket_type Key Value),
        t.buckets[i]? = some b ∧ (k, v) ∈ b.data) ∧
    (∀ k v d, (k, v) ∈ t.get_map ↔
      (k ∈ t.entries.map Prod.fst ∧ t.value_for k d = .ok v)) ∧
    (∀ k, k ∈ t.get_map.map Prod.fst → k ∈ t.entries.map Prod.fst) := by
  have hw := threadsafe_lookup_table.reachable_well_formed hr
  obtain ⟨hs, hm⟩ := threadsafe_lookup_table.foldl_map_insert t.entries []
    List.Pairwise.nil (by simp) (threadsafe_lookup_table.entries_nodup hw)
  rw [← threadsafe_lookup_table.get_map_eq] at hs hm
  have hm1 : ∀ x, x ∈ t.get_map ↔ x ∈ t.entries := by
    intro x
    simpa using hm x
  have hv : ∀ k v d, (k, v) ∈ t.entries → t.value_for k d = .ok v := by
    intro k v d hx
    obtain ⟨i, b, hb, hx1⟩ := (threadsafe_lookup_table.mem_entries _).1 hx
    have hi : t.hasher k % t.buckets.length = i := (hw i b hb).2 (k, v) hx1
    have hpos : 0 < t.buckets.length := by
      have := (List.getElem?_eq_some.1 hb).1
      omega
    rw [threadsafe_lookup_table.value_for_eq t k d hpos b (by rw [hi]; exact hb)]
    exact threadsafe_lookup_table.bucket_type.value_for_of_mem b k v d (hw i b hb).1 hx1
  refine ⟨hs, ?_, ?_, ?_⟩
  · intro k v
    rw [hm1, threadsafe_lookup_table.mem_entries]
  · intro k v d
    rw [hm1]
    constructor
    · intro hx
      exact ⟨List.mem_map.2 ⟨(k, v), hx, rfl⟩, hv k v d hx⟩
    · rintro ⟨hk, he⟩
      obtain ⟨⟨k1, v1⟩, hx, rfl⟩ := List.mem_map.1 hk
      have e1 := hv k1 v1 d hx
      simp only at he
      rw [e1] at he
      cases he
      exact hx
  · intro k hk
    obtain ⟨x, hx, rfl⟩ := List.mem_map.1 hk
    exact List.mem_map.2 ⟨x, (hm1 x).1 hx, rfl⟩

/-- C9, at the table reached from three empty buckets (identity hash) by
`add_or_update_mapping(4, 1)`, `add_or_update_mapping(7, 2)` and
`add_or_update_mapping(2, 5)`: the snapshot is `[(2, 5), (4, 1), (7, 2)]`. -/
theorem threadsafe_lookup_table.get_map_exact_witness :
    threadsafe_lookup_table.reachable
      ({ buckets := [{ data := [] }, { data := [(4, 1), (7, 2)] }, { data := [(2, 5)] }],
         hasher := fun k : Nat => k } : threadsafe_lookup_table Nat Nat) ∧
    ({ buckets := [{ data := [] }, { data := [(4, 1), (7, 2)] }, { data := [(2, 5)] }],
       hasher := fun k : Nat => k } : threadsafe_lookup_table Nat Nat).get_map
      = [(2, 5), (4, 1), (7, 2)] ∧
    ([(2, 5), (4, 1), (7, 2)] : List (Nat × Nat)).Pairwise (fun a b => a.1 < b.1) :=
  ⟨.add_or_update_mapping 2 5
      (.add_or_update_mapping 7 2
        (.add_or_update_mapping (t := threadsafe_lookup_table.new 3 (fun k : Nat => k)) 4 1
          (.new 3 _) rfl) rfl) rfl,
   by decide,
   (threadsafe_lookup_table.get_map_exact Nat Nat
      { buckets := [{ data := [] }, { data := [(4, 1), (7, 2)] }, { data := [(2, 5)] }],
        hasher := fun k : Nat => k }
      (.add_or_update_mapping 2 5
        (.add_or_update_mapping 7 2
          (.add_or_update_mapping (t := threadsafe_lookup_table.new 3 (fun k : Nat => k)) 4 1
            (.new 3 _) rfl) rfl) rfl)).1⟩

/-- C10. In every table a thread can reach from a freshly constructed one with
`add_or_update_mapping` and `remove_mapping`, each key occurs in at most one
entry of a bucket, and in no entry of a bucket other than the one `get_bucket`
selects for it. -/
theorem threadsafe_lookup_table.key_in_at_most_one_entry
    (Key Value : Type) [DecidableEq Key] (t : threadsafe_lookup_table Key Value)
    (hr : threadsafe_lookup_table.reachable t) (k : Key) :
    ∀ i b, t.buckets[i]? = some b →
      (b.data.filter (fun item => decide (item.1 = k))).length ≤ 1 ∧
      (i ≠ t.hasher k % t.buckets.length → ∀ item ∈ b.data, item.1 ≠ k) := by
  intro i b hb
  obtain ⟨hn, ho⟩ := threadsafe_lookup_table.reachable_well_formed hr i b hb
  constructor
  · have hc := List.nodup_iff_count_le_one.1 hn k
    rw [List.count, List.countP_map, List.countP_eq_length_filter] at hc
    have e : ((fun x => x == k) ∘ Prod.fst : Key × Value → Bool)
        = fun item => decide (item.1 = k) := by
      funext item
      rfl
    rw [e] at hc
    exact hc
  · intro hi item hitem hk
    apply hi
    rw [← ho item hitem, hk]

/-- C10, at the table reached from three empty buckets (identity hash) by
`add_or_update_mapping(4, 1)`, `add_or_update_mapping(7, 2)` and
`add_or_update_mapping(4, 3)`, for the key 4 and bucket 1. -/
theorem threadsafe_lookup_table.key_in_at_most_one_entry_witness :
    threadsafe_lookup_table.reachable
      ({ buckets := [{ data := [] }, { data := [(4, 3), (7, 2)] }, { data := [] }],
         hasher := fun k : Nat => k } : threadsafe_lookup_table Nat Nat) ∧
    (([(4, 3), (7, 2)] : List (Nat × Nat)).filter (fun item => decide (item.1 = 4))).length ≤ 1 ∧
    (1 ≠ 4 % 3 → ∀ item ∈ ([(4, 3), (7, 2)] : List (Nat × Nat)), item.1 ≠ 4) :=
  ⟨.add_or_update_mapping 4 3
      (.add_or_update_mapping 7 2
        (.add_or_update_mapping (t := threadsafe_lookup_table.new 3 (fun k : Nat => k)) 4 1
          (.new 3 _) rfl) rfl) rfl,
   threadsafe_lookup_table.key_in_at_most_one_entry Nat Nat
    { buckets := [{ data := [] }, { data := [(4, 3), (7, 2)] }, { data := [] }],
      hasher := fun k : Nat => k }
    (.add_or_update_mapping 4 3
      (.add_or_update_mapping 7 2
        (.add_or_update_mapping (t := threadsafe_lookup_table.new 3 (fun k : Nat => k)) 4 1
          (.new 3 _) rfl) rfl) rfl)
    4 1 { data := [(4, 3), (7, 2)] } rfl⟩

/-- C11. The structural invariant of the queue (the node `tail` refers to has
no payload and no next link; `tail` is reached from `head` by following next
links; every node met before `tail` carries a payload and a non-null next link)
holds after the constructor, and `push`, `try_pop` and `wait_and_pop` return a
queue that satisfies it whenever they are called on one that does, with the
pushed element added at the back, respectively the oldest element removed; under
it `head == tail` if and only if the queue holds no element.  Every queue a
thread can reach satisfies it. -/
theorem threadsafe_queue.structural_invariant_kept (T : Type) :
    threadsafe_queue.structural_invariant (threadsafe_queue.new : threadsafe_queue T) [] ∧
    (∀ (q : threadsafe_queue T) (xs : List T), q.structural_invariant xs →
      (∃ t, q.tail = some t ∧ q.store[t]? = some (some { data := none, next := none })) ∧
      (q.head = q.get_tail ↔ xs = []) ∧
      (∀ v, ∃ q1, q.push v = .ok q1 ∧ q1.structural_invariant (xs ++ [v])) ∧
      (∃ q1, q.try_pop = .ok (xs.head?, q1) ∧ q1.structural_invariant xs.tail) ∧
      ((xs = [] ∧ q.wait_and_pop = .error .blocks_forever) ∨
        ∃ q1, q.wait_and_pop = .ok (xs.head?, q1) ∧ q1.structural_invariant xs.tail)) ∧
    (∀ q : threadsafe_queue T, threadsafe_queue.reachable q →
      ∃ xs, q.structural_invariant xs) := by
  refine ⟨threadsafe_queue.structural_invariant_new, ?_, ?_⟩
  · intro q xs hq
    refine ⟨?_, threadsafe_queue.structural_invariant_head_tail hq,
      fun v => threadsafe_queue.structural_invariant_push hq v,
      threadsafe_queue.structural_invariant_try_pop hq,
      threadsafe_queue.structural_invariant_wait_and_pop hq⟩
    obtain ⟨h, -, hc⟩ := hq
    exact threadsafe_queue.chain_tail q xs h hc
  · intro q hr
    obtain ⟨h, xs, hq⟩ := threadsafe_queue.reachable_holds hr
    exact ⟨xs, threadsafe_queue.holds_structural_invariant hq⟩

/-- C11, at the queue a `push(7)` leaves on a fresh queue of naturals: it
satisfies the invariant with the one element 7, `head` differs from `tail`,
and `try_pop` returns 7. -/
theorem threadsafe_queue.structural_invariant_kept_witness :
    threadsafe_queue.structural_invariant
      ({ store := [some { data := some 7, next := some 1 }, some { data := none, next := none }],
         head := some 0, tail := some 1 } : threadsafe_queue Nat) [7] ∧
    ((({ store := [some { data := some 7, next := some 1 }, some { data := none, next := none }],
         head := some 0, tail := some 1 } : threadsafe_queue Nat).head
      = ({ store := [some { data := some 7, next := some 1 }, some { data := none, next := none }],
           head := some 0, tail := some 1 } : threadsafe_queue Nat).get_tail) ↔
      ([7] : List Nat) = []) ∧
    ∃ q1,
      ({ store := [some { data := some 7, next := some 1 }, some { data := none, next := none }],
         head := some 0, tail := some 1 } : threadsafe_queue Nat).try_pop = .ok (some 7, q1) ∧
      q1.structural_invariant [] :=
  have hq : threadsafe_queue.structural_invariant
      ({ store := [some { data := some 7, next := some 1 }, some { data := none, next := none }],
         head := some 0, tail := some 1 } : threadsafe_queue Nat) [7] :=
    ⟨0, rfl, 1, rfl, rfl, rfl⟩
  ⟨hq, ((threadsafe_queue.structural_invariant_kept Nat).2.1 _ [7] hq).2.1,
   ((threadsafe_queue.structural_invariant_kept Nat).2.1 _ [7] hq).2.2.2.1⟩

/-- C12. The bucket `get_bucket` selects is a pure function of the key's hash
and the bucket count: on a table with at least one bucket it is the index
`hasher(key) % buckets.size()`, which is below the bucket count, so the lookup
`buckets[bucket_index]` is in range; tables with the same hash of the key and
the same bucket count select the same bucket; the constructor makes
`num_buckets` buckets, and `add_or_update_mapping` and `remove_mapping` change
neither the bucket count nor the hash function, so every key selects the same
bucket before and after them. -/
theorem threadsafe_lookup_table.get_bucket_in_range (Key Value : Type) [DecidableEq Key] :
    (∀ (t : threadsafe_lookup_table Key Value) (k : Key), 0 < t.buckets.length →
      t.get_bucket k = .ok (t.hasher k % t.buckets.length) ∧
      t.hasher k % t.buckets.length < t.buckets.length ∧
      ∃ b, t.buckets[t.hasher k % t.buckets.length]? = some b) ∧
    (∀ (t t1 : threadsafe_lookup_table Key Value) (k : Key),
      t1.hasher k = t.hasher k → t1.buckets.length = t.buckets.length →
      t1.get_bucket k = t.get_bucket k) ∧
    (∀ (n : Nat) (h : Key → Nat),
      (threadsafe_lookup_table.new n h : threadsafe_lookup_table Key Value).buckets.length = n) ∧
    (∀ (t t1 : threadsafe_lookup_table Key Value) (k : Key) (v : Value),
      t.add_or_update_mapping k v = .ok t1 →
      t1.buckets.length = t.buckets.length ∧ t1.hasher = t.hasher ∧
      ∀ k1, t1.get_bucket k1 = t.get_bucket k1) ∧
    (∀ (t t1 : threadsafe_lookup_table Key Value) (k : Key),
      t.remove_mapping k = .ok t1 →
      t1.buckets.length = t.buckets.length ∧ t1.hasher = t.hasher ∧
      ∀ k1, t1.get_bucket k1 = t.get_bucket k1) := by
  refine ⟨?_, ?_, ?_, ?_, ?_⟩
  · intro t k hpos
    exact ⟨(threadsafe_lookup_table.get_bucket_eq t k hpos).1, Nat.mod_lt _ hpos,
      (threadsafe_lookup_table.get_bucket_eq t k hpos).2⟩
  · intro t t1 k hh hl
    simp only [threadsafe_lookup_table.get_bucket, hh, hl]
  · intro n h
    simp [threadsafe_lookup_table.new]
  · intro t t1 k v e
    rcases Nat.eq_zero_or_pos t.buckets.length with h0 | hpos
    · simp [threadsafe_lookup_table.add_or_update_mapping,
        threadsafe_lookup_table.get_bucket, h0] at e
    · obtain ⟨b, hb⟩ := (threadsafe_lookup_table.get_bucket_eq t k hpos).2
      rw [threadsafe_lookup_table.add_or_update_mapping_eq t k v hpos b hb] at e
      cases e
      refine ⟨by simp, rfl, ?_⟩
      intro k1
      simp only [threadsafe_lookup_table.get_bucket, List.length_set]
  · intro t t1 k e
    rcases Nat.eq_zero_or_pos t.buckets.length with h0 | hpos
    · simp [threadsafe_lookup_table.remove_mapping,
        threadsafe_lookup_table.get_bucket, h0] at e
    · obtain ⟨b, hb⟩ := (threadsafe_lookup_table.get_bucket_eq t k hpos).2
      rw [threadsafe_lookup_table.remove_mapping_eq t k hpos b hb] at e
      cases e
      refine ⟨by simp, rfl, ?_⟩
      intro k1
      simp only [threadsafe_lookup_table.get_bucket, List.length_set]

/-- C12, at the table with the default 19 buckets and the identity hash: the
key 42 selects bucket 4, which is in range. -/
theorem threadsafe_lookup_table.get_bucket_in_range_witness :
    0 < (threadsafe_lookup_table.new 19 (fun k : Nat => k) :
      threadsafe_lookup_table Nat Nat).buckets.length ∧
    (threadsafe_lookup_table.new 19 (fun k : Nat => k) :
      threadsafe_lookup_table Nat Nat).get_bucket 42 = .ok 4 ∧
    4 < (threadsafe_lookup_table.new 19 (fun k : Nat => k) :
      threadsafe_lookup_table Nat Nat).buckets.length :=
  ⟨by decide,
   ((threadsafe_lookup_table.get_bucket_in_range Nat Nat).1
      (threadsafe_lookup_table.new 19 (fun k : Nat => k)) 42 (by decide)).1,
   ((threadsafe_lookup_table.get_bucket_in_range Nat Nat).1
      (threadsafe_lookup_table.new 19 (fun k : Nat => k)) 42 (by decide)).2.1⟩

/-- C15. For every sequence of `push`, `try_pop` and `wait_and_pop` calls made
one after the other on a fresh queue, the sentinel-node queue returns from its
pops exactly what the single-lock queue of list6.2.cpp returns (a list with
append at the back and removal at the front), blocking where it blocks; a
sequence of `push` and `try_pop` calls alone always returns; and the values the
pops return, in pop order, are the first of the values pushed, in push order,
so that a value pushed before another is popped before it. -/
theorem threadsafe_queue.refines_single_lock_queue (T : Type)
    (cs : List (threadsafe_queue.call T)) :
    (threadsafe_queue.new : threadsafe_queue T).results cs
      = (single_lock_queue.new : single_lock_queue T).results cs ∧
    (threadsafe_queue.call.wait_and_pop ∉ cs →
      ∃ rs, (threadsafe_queue.new : threadsafe_queue T).results cs = .ok rs) ∧
    (∀ rs, (threadsafe_queue.new : threadsafe_queue T).results cs = .ok rs →
      rs.reduceOption <+: threadsafe_queue.pushed cs) := by
  have e := threadsafe_queue.results_eq_single_lock cs
    (threadsafe_queue.new : threadsafe_queue T) [] threadsafe_queue.structural_invariant_new
  refine ⟨e, ?_, ?_⟩
  · intro hn
    rw [e]
    exact single_lock_queue.results_total cs _ hn
  · intro rs hrs
    rw [e] at hrs
    simpa using single_lock_queue.results_prefix cs _ rs hrs

/-- C15, at two pushes followed by three `try_pop` calls: the pops return 1,
then 2, then the empty handle. -/
theorem threadsafe_queue.refines_single_lock_queue_witness :
    (threadsafe_queue.new : threadsafe_queue Nat).results
        [.push 1, .push 2, .try_pop, .try_pop, .try_pop] = .ok [some 1, some 2, none] ∧
    ([some 1, some 2, none] : List (Option Nat)).reduceOption <+:
      threadsafe_queue.pushed
        ([.push 1, .push 2, .try_pop, .try_pop, .try_pop] : List (threadsafe_queue.call Nat)) :=
  ⟨rfl,
   (threadsafe_queue.refines_single_lock_queue Nat
      [.push 1, .push 2, .try_pop, .try_pop, .try_pop]).2.2 _ rfl⟩

/-- C16. For every bucket, `add_or_update_mapping(k, v)` overwrites or appends.
If `k` is present, the bucket keeps its number of entries and its keys in the
same order; the first entry for `k`, at position `i`, becomes `(k, v)` and the
entry at every other position is unchanged.  If `k` is absent, the new bucket is
the old one with the one entry `(k, v)` appended at the end.  The table call
does this to the bucket `get_bucket` selects. -/
theorem threadsafe_lookup_table.add_or_update_mapping_overwrites_or_appends
    (Key Value : Type) [DecidableEq Key] (k : Key) (v : Value) :
    (∀ b : threadsafe_lookup_table.bucket_type Key Value,
      ∃ b1, b.add_or_update_mapping k v = .ok b1 ∧
        ((∃ item ∈ b.data, item.1 = k) →
          b1.data.length = b.data.length ∧
          b1.data.map Prod.fst = b.data.map Prod.fst ∧
          ∃ i v0, b.data[i]? = some (k, v0) ∧ b1.data[i]? = some (k, v) ∧
            (∀ (j : Nat) (item : Key × Value),
              j < i → b.data[j]? = some item → item.1 ≠ k) ∧
            (∀ j, j ≠ i → b1.data[j]? = b.data[j]?)) ∧
        ((∀ item ∈ b.data, item.1 ≠ k) → b1.data = b.data ++ [(k, v)])) ∧
    (∀ t : threadsafe_lookup_table Key Value, 0 < t.buckets.length →
      ∃ b b1 t1, t.buckets[t.hasher k % t.buckets.length]? = some b ∧
        b.add_or_update_mapping k v = .ok b1 ∧
        t.add_or_update_mapping k v = .ok t1 ∧
        t1.buckets[t.hasher k % t.buckets.length]? = some b1) := by
  constructor
  · intro b
    refine ⟨_, threadsafe_lookup_table.bucket_type.bucket_add_or_update_mapping_eq b k v, ?_, ?_⟩
    · rintro ⟨item, hitem, hk⟩
      have hlt : b.find_entry_for k < b.data.length :=
        threadsafe_lookup_table.find_if_lt_of_mem _ _ item hitem (by simp [hk])
      have hset : b.data.take (b.find_entry_for k) ++
          (k, v) :: b.data.drop (b.find_entry_for k + 1)
          = b.data.set (b.find_entry_for k) (k, v) := by
        rw [List.set_eq_take_append_cons_drop, if_pos hlt]
      obtain ⟨v0, hv0⟩ := threadsafe_lookup_table.bucket_type.data_split b k hlt
      have hlen : (b.data.take (b.find_entry_for k)).length = b.find_entry_for k :=
        List.length_take_of_le (le_of_lt hlt)
      have hget : b.data[b.find_entry_for k]? = some (k, v0) := by
        conv_lhs => rw [hv0]
        rw [List.getElem?_append_right (by rw [hlen]), hlen]
        simp
      refine ⟨?_, ?_, b.find_entry_for k, v0, hget, ?_, ?_, ?_⟩
      · simp only [hset, List.length_set]
      · rcases threadsafe_lookup_table.bucket_type.keys_after_add b k v with ⟨e, -⟩ | ⟨-, ha⟩
        · exact e
        · exact absurd hk (ha item hitem)
      · simp only [hset, List.getElem?_set_self hlt]
      · intro j it hj hit
        apply threadsafe_lookup_table.bucket_type.before_find_entry_for b k it
        have : (b.data.take (b.find_entry_for k))[j]? = some it := by
          rw [List.getElem?_take_of_lt hj]; exact hit
        exact List.getElem?_mem this
      · intro j hj
        simp only [hset]
        exact List.getElem?_set_ne (Ne.symm hj)
    · intro ha
      have hf : b.find_entry_for k = b.data.length :=
        threadsafe_lookup_table.find_if_eq_length _ _ (fun x hx => by simpa using ha x hx)
      simp [hf]
  · intro t hpos
    obtain ⟨b, hb⟩ := (threadsafe_lookup_table.get_bucket_eq t k hpos).2
    have hlt : t.hasher k % t.buckets.length < t.buckets.length := Nat.mod_lt _ hpos
    refine ⟨b, _, _, hb,
      threadsafe_lookup_table.bucket_type.bucket_add_or_update_mapping_eq b k v,
      threadsafe_lookup_table.add_or_update_mapping_eq t k v hpos b hb, ?_⟩
    simp [List.getElem?_set, hlt]

/-- C16, at the bucket with the entries (4, 1), (7, 2): `add_or_update_mapping(7, 9)`
overwrites the second entry, and `add_or_update_mapping(5, 9)` appends. -/
theorem threadsafe_lookup_table.add_or_update_mapping_overwrites_or_appends_witness :
    (({ data := [(4, 1), (7, 2)] } :
        threadsafe_lookup_table.bucket_type Nat Nat).add_or_update_mapping 7 9
      = .ok { data := [(4, 1), (7, 9)] }) ∧
    (∀ item ∈ ([(4, 1), (7, 2)] : List (Nat × Nat)), item.1 ≠ 5) ∧
    ∃ b1, ({ data := [(4, 1), (7, 2)] } :
        threadsafe_lookup_table.bucket_type Nat Nat).add_or_update_mapping 5 9 = .ok b1 ∧
      b1.data = [(4, 1), (7, 2)] ++ [(5, 9)] :=
  ⟨rfl, by decide,
   ((threadsafe_lookup_table.add_or_update_mapping_overwrites_or_appends Nat Nat 5 9).1
      { data := [(4, 1), (7, 2)] }).imp (fun _ h => ⟨h.1, h.2.2 (by decide)⟩)⟩

/-- C17. On every queue with `head != tail`, `wait_and_pop` does not block and
is `try_pop`: same result, same queue afterwards.  On every non-empty queue a
thread can reach, both return the payload of the node `head` owns and leave the
same queue. -/
theorem threadsafe_queue.wait_and_pop_as_try_pop (T : Type) :
    (∀ q : threadsafe_queue T, q.head ≠ q.get_tail →
      q.wait_and_pop = q.try_pop ∧ q.wait_and_pop ≠ .error .blocks_forever) ∧
    (∀ q : threadsafe_queue T, threadsafe_queue.reachable q → q.empty = false →
      ∃ (x : T) (q1 : threadsafe_queue T) (h : Nat) (n : threadsafe_queue.node T),
        q.head = some h ∧ q.store[h]? = some (some n) ∧ n.data = some x ∧
        q.wait_and_pop = .ok (some x, q1) ∧ q.try_pop = .ok (some x, q1)) := by
  constructor
  · intro q hne
    refine ⟨threadsafe_queue.wait_and_pop_eq_try_pop q hne, ?_⟩
    simp only [threadsafe_queue.wait_and_pop, threadsafe_queue.wait_pop_head,
      threadsafe_queue.wait_for_data, hne, ne_eq, not_false_eq_true, if_true]
    have hp := threadsafe_queue.pop_head_not_blocked q
    cases e : q.pop_head with
    | error err =>
      rw [e] at hp
      simpa using hp
    | ok r =>
      obtain ⟨old_head, q1⟩ := r
      simp only
      split <;> simp
  · intro q hr he
    obtain ⟨h0, xs, hq0⟩ := threadsafe_queue.reachable_holds hr
    have hq := threadsafe_queue.holds_structural_invariant hq0
    have hne : q.head ≠ q.get_tail := by
      simpa [threadsafe_queue.empty] using he
    have hht := threadsafe_queue.structural_invariant_head_tail hq
    cases xs with
    | nil => exact absurd (hht.2 rfl) hne
    | cons x xs =>
      obtain ⟨q1, e1, -⟩ := threadsafe_queue.structural_invariant_try_pop hq
      obtain ⟨h, hh, b, e, -⟩ := hq
      exact ⟨x, q1, h, _, hh, e, rfl,
        by rw [threadsafe_queue.wait_and_pop_eq_try_pop q hne]; exact e1, e1⟩

/-- C17, at the queue a `push(7)` leaves on a fresh queue of naturals: both
calls return 7 and leave the same empty queue. -/
theorem threadsafe_queue.wait_and_pop_as_try_pop_witness :
    (({ store := [some { data := some 7, next := some 1 }, some { data := none, next := none }],
        head := some 0, tail := some 1 } : threadsafe_queue Nat).head
      ≠ ({ store := [some { data := some 7, next := some 1 }, some { data := none, next := none }],
           head := some 0, tail := some 1 } : threadsafe_queue Nat).get_tail) ∧
    (({ store := [some { data := some 7, next := some 1 }, some { data := none, next := none }],
        head := some 0, tail := some 1 } : threadsafe_queue Nat).wait_and_pop
      = ({ store := [some { data := some 7, next := some 1 }, some { data := none, next := none }],
           head := some 0, tail := some 1 } : threadsafe_queue Nat).try_pop) ∧
    (({ store := [some { data := some 7, next := some 1 }, some { data := none, next := none }],
        head := some 0, tail := some 1 } : threadsafe_queue Nat).try_pop
      = .ok (some 7, { store := [none, some { data := none, next := none }],
                       head := some 1, tail := some 1 })) :=
  ⟨by decide,
   ((threadsafe_queue.wait_and_pop_as_try_pop Nat).1 _ (by decide)).1,
   rfl⟩

/-- C18. On a table with at least one bucket, each single-key call on the key
`k` touches only the bucket `get_bucket(k)` selects: `add_or_update_mapping`
and `remove_mapping` return a table with the same number of buckets in which
every other bucket is what it was, and the result of `value_for`, which
returns no table, is decided by that one bucket. -/
theorem threadsafe_lookup_table.single_key_call_frame
    (Key Value : Type) [DecidableEq Key] (t : threadsafe_lookup_table Key Value) (k : Key)
    (hpos : 0 < t.buckets.length) :
    (∀ v, ∃ t1, t.add_or_update_mapping k v = .ok t1 ∧
      t1.buckets.length = t.buckets.length ∧
      ∀ j, j ≠ t.hasher k % t.buckets.length → t1.buckets[j]? = t.buckets[j]?) ∧
    (∃ t1, t.remove_mapping k = .ok t1 ∧
      t1.buckets.length = t.buckets.length ∧
      ∀ j, j ≠ t.hasher k % t.buckets.length → t1.buckets[j]? = t.buckets[j]?) ∧
    (∀ (d : Value) (t2 : threadsafe_lookup_table Key Value),
      t2.hasher k = t.hasher k → t2.buckets.length = t.buckets.length →
      t2.buckets[t.hasher k % t.buckets.length]? = t.buckets[t.hasher k % t.buckets.length]? →
      t2.value_for k d = t.value_for k d) := by
  obtain ⟨b, hb⟩ := (threadsafe_lookup_table.get_bucket_eq t k hpos).2
  refine ⟨?_, ?_, ?_⟩
  · intro v
    refine ⟨_, threadsafe_lookup_table.add_or_update_mapping_eq t k v hpos b hb, ?_, ?_⟩
    · simp only [List.length_set]
    · intro j hj
      exact List.getElem?_set_ne (Ne.symm hj)
  · refine ⟨_, threadsafe_lookup_table.remove_mapping_eq t k hpos b hb, ?_, ?_⟩
    · simp only [List.length_set]
    · intro j hj
      exact List.getElem?_set_ne (Ne.symm hj)
  · intro d t2 hh hl hbk
    rw [threadsafe_lookup_table.value_for_eq t k d hpos b hb]
    exact threadsafe_lookup_table.value_for_eq t2 k d (by rw [hl]; exact hpos) b
      (by rw [hh, hl, hbk]; exact hb)

/-- C18, at the table with three buckets (identity hash) holding (4, 1) and
(7, 2) in bucket 1 and (2, 5) in bucket 2: `remove_mapping(4)` leaves bucket 2
as it was. -/
theorem threadsafe_lookup_table.single_key_call_frame_witness :
    0 < ({ buckets := [{ data := [] }, { data := [(4, 1), (7, 2)] }, { data := [(2, 5)] }],
           hasher := fun k : Nat => k } : threadsafe_lookup_table Nat Nat).buckets.length ∧
    ∃ t1, ({ buckets := [{ data := [] }, { data := [(4, 1), (7, 2)] }, { data := [(2, 5)] }],
             hasher := fun k : Nat => k } : threadsafe_lookup_table Nat Nat).remove_mapping 4
        = .ok t1 ∧
      t1.buckets[2]? = some { data := [(2, 5)] } :=
  ⟨by decide,
   ((threadsafe_lookup_table.single_key_call_frame Nat Nat
      { buckets := [{ data := [] }, { data := [(4, 1), (7, 2)] }, { data := [(2, 5)] }],
        hasher := fun k : Nat => k } 4 (by decide)).2.1).imp
    (fun _ h => ⟨h.1, h.2.2 2 (by decide)⟩)⟩

/-- C18, as stated for every table, fails at the table constructed with no
bucket (identity hash): `get_bucket(4)` selects no bucket, and `value_for`,
`add_or_update_mapping` and `remove_mapping` on the key 4 all have undefined
behaviour, so none of them returns a table whose other buckets could be
compared. -/
theorem threadsafe_lookup_table.single_key_call_frame_counterexample :
    (threadsafe_lookup_table.new 0 (fun k : Nat => k) : threadsafe_lookup_table Nat Nat).get_bucket 4 = .error .undefined_behaviour ∧
    (threadsafe_lookup_table.new 0 (fun k : Nat => k) : threadsafe_lookup_table Nat Nat).value_for 4 0 = .error .undefined_behaviour ∧
    (¬ ∃ t1, (threadsafe_lookup_table.new 0 (fun k : Nat => k) : threadsafe_lookup_table Nat Nat).add_or_update_mapping 4 1 = .ok t1 ∧
      t1.buckets.length = (threadsafe_lookup_table.new 0 (fun k : Nat => k) : threadsafe_lookup_table Nat Nat).buckets.length ∧
      ∀ j, j ≠ 4 % (threadsafe_lookup_table.new 0 (fun k : Nat => k) : threadsafe_lookup_table Nat Nat).buckets.length → t1.buckets[j]? = (threadsafe_lookup_table.new 0 (fun k : Nat => k) : threadsafe_lookup_table Nat Nat).buckets[j]?) ∧
    (¬ ∃ t1, (threadsafe_lookup_table.new 0 (fun k : Nat => k) : threadsafe_lookup_table Nat Nat).remove_mapping 4 = .ok t1 ∧
      t1.buckets.length = (threadsafe_lookup_table.new 0 (fun k : Nat => k) : threadsafe_lookup_table Nat Nat).buckets.length ∧
      ∀ j, j ≠ 4 % (threadsafe_lookup_table.new 0 (fun k : Nat => k) : threadsafe_lookup_table Nat Nat).buckets.length → t1.buckets[j]? = (threadsafe_lookup_table.new 0 (fun k : Nat => k) : threadsafe_lookup_table Nat Nat).buckets[j]?) := by
  refine ⟨rfl, rfl, ?_, ?_⟩
  · rintro ⟨t1, h, -⟩
    change Except.error fault.undefined_behaviour = Except.ok t1 at h
    cases h
  · rintro ⟨t1, h, -⟩
    change Except.error fault.undefined_behaviour = Except.ok t1 at h
    cases h

/-- C19. The call `remove_mapping(k)` on a table with at least one bucket that
holds no entry for `k` returns the table it was called on: every bucket, its
entries and their order are unchanged.  A bucket that holds no entry for `k`
is likewise returned as it was. -/
theorem threadsafe_lookup_table.remove_mapping_absent
    (Key Value : Type) [DecidableEq Key] (k : Key) :
    (∀ b : threadsafe_lookup_table.bucket_type Key Value,
      (∀ item ∈ b.data, item.1 ≠ k) → b.remove_mapping k = .ok b) ∧
    (∀ t : threadsafe_lookup_table Key Value, 0 < t.buckets.length →
      (∀ item ∈ t.entries, item.1 ≠ k) → t.remove_mapping k = .ok t) := by
  have hbucket : ∀ b : threadsafe_lookup_table.bucket_type Key Value,
      (∀ item ∈ b.data, item.1 ≠ k) → b.remove_mapping k = .ok b := by
    intro b ha
    have hf : b.find_entry_for k = b.data.length :=
      threadsafe_lookup_table.find_if_eq_length _ _ (fun x hx => by simpa using ha x hx)
    simp [threadsafe_lookup_table.bucket_type.remove_mapping, hf]
  refine ⟨hbucket, ?_⟩
  intro t hpos ha
  obtain ⟨b, hb⟩ := (threadsafe_lookup_table.get_bucket_eq t k hpos).2
  have hab : ∀ item ∈ b.data, item.1 ≠ k := fun item hi =>
    ha item ((threadsafe_lookup_table.mem_entries item).2 ⟨_, b, hb, hi⟩)
  simp only [threadsafe_lookup_table.remove_mapping,
    (threadsafe_lookup_table.get_bucket_eq t k hpos).1, hb, hbucket b hab]
  have hset : t.buckets.set (t.hasher k % t.buckets.length) b = t.buckets := by
    apply List.ext_getElem?
    intro j
    by_cases hj : t.hasher k % t.buckets.length = j
    · subst hj
      rw [List.getElem?_set_self (Nat.mod_lt _ hpos), hb]
    · rw [List.getElem?_set_ne hj]
  rw [hset]

/-- C19, at the table with three buckets (identity hash) holding (4, 1) and
(7, 2) in bucket 1, which holds no entry for the key 10 of the same bucket. -/
theorem threadsafe_lookup_table.remove_mapping_absent_witness :
    0 < ({ buckets := [{ data := [] }, { data := [(4, 1), (7, 2)] }, { data := [] }],
           hasher := fun k : Nat => k } : threadsafe_lookup_table Nat Nat).buckets.length ∧
    (∀ item ∈ ({ buckets := [{ data := [] }, { data := [(4, 1), (7, 2)] }, { data := [] }],
                 hasher := fun k : Nat => k } : threadsafe_lookup_table Nat Nat).entries,
      item.1 ≠ 10) ∧
    ({ buckets := [{ data := [] }, { data := [(4, 1), (7, 2)] }, { data := [] }],
       hasher := fun k : Nat => k } : threadsafe_lookup_table Nat Nat).remove_mapping 10
      = .ok { buckets := [{ data := [] }, { data := [(4, 1), (7, 2)] }, { data := [] }],
              hasher := fun k : Nat => k } :=
  ⟨by decide, by decide,
   (threadsafe_lookup_table.remove_mapping_absent Nat Nat 10).2 _ (by decide) (by decide)⟩

/-- C19, as stated for every table that holds no entry for `k`, fails at the
table constructed with no bucket (identity hash): it holds no entry at all, yet
`remove_mapping(10)` does not return it unchanged, it has undefined
behaviour. -/
theorem threadsafe_lookup_table.remove_mapping_absent_counterexample :
    (∀ item ∈ (threadsafe_lookup_table.new 0 (fun k : Nat => k) : threadsafe_lookup_table Nat Nat).entries, item.1 ≠ 10) ∧
    (threadsafe_lookup_table.new 0 (fun k : Nat => k) : threadsafe_lookup_table Nat Nat).remove_mapping 10 = .error .undefined_behaviour ∧
    (threadsafe_lookup_table.new 0 (fun k : Nat => k) : threadsafe_lookup_table Nat Nat).remove_mapping 10 ≠ .ok (threadsafe_lookup_table.new 0 (fun k : Nat => k) : threadsafe_lookup_table Nat Nat) := by
  refine ⟨by simp [threadsafe_lookup_table.entries, threadsafe_lookup_table.new], rfl, ?_⟩
  intro h
  change Except.error fault.undefined_behaviour = Except.ok _ at h
  cases h

/-- C20. For every list built through the public interface, `remove_if` with a
predicate that is true of every payload (the destructor calls it with such a
one) returns, and leaves no node after the sentinel: `head.next` is null, and a
following `for_each` returns without having called its visitor, whose state is
what it was. -/
theorem threadsafe_list.remove_if_true_drains (T : Type) (l : threadsafe_list T)
    (hr : threadsafe_list.reachable l) :
    (∀ p : T → Bool, (∀ x, p x = true) →
      ∃ l1, l.remove_if p = .ok l1 ∧ l1.head.next = .null ∧ l1.payloads = [] ∧
        ∀ (σ : Type) (f : T → σ → T × σ) (s : σ), l1.for_each f s = .ok (l1, s)) ∧
    (∃ l1, l.destructor = .ok l1 ∧ l1.head.next = .null ∧ l1.payloads = [] ∧
      l1.for_each threadsafe_list.record [] = .ok (l1, [])) := by
  have key : ∀ p : T → Bool, (∀ x, p x = true) →
      ∃ l1, l.remove_if p = .ok l1 ∧ l1.head.next = .null ∧ l1.payloads = [] ∧
        ∀ (σ : Type) (f : T → σ → T × σ) (s : σ), l1.for_each f s = .ok (l1, s) := by
    intro p hp
    obtain ⟨xs, hx⟩ := threadsafe_list.reachable_payloads hr
    obtain ⟨n1, e1, h1⟩ := threadsafe_list.remove_if_loop_filter p xs _ hx
    have hnil : xs.filter (fun x => !p x) = [] := by
      simp [List.filter_eq_nil_iff, hp]
    rw [hnil] at h1
    have hn : n1 = .null := by
      cases n1 with
      | null => rfl
      | owns d nx => simp [threadsafe_list.node_ptr.payloads] at h1
    subst hn
    refine ⟨{ head := { data := l.head.data, next := .null } }, ?_, rfl, rfl, ?_⟩
    · simp only [threadsafe_list.remove_if, e1]
    · intro σ f s
      rfl
  refine ⟨key, ?_⟩
  obtain ⟨l1, e, hn, hp, hf⟩ := key (fun _ => true) (fun _ => rfl)
  exact ⟨l1, e, hn, hp, hf _ threadsafe_list.record []⟩

/-- C20, at the list built by `push_front(1)`, `push_front(2)`, `push_front(3)`:
the destructor leaves the sentinel alone. -/
theorem threadsafe_list.remove_if_true_drains_witness :
    threadsafe_list.reachable
      ((threadsafe_list.new : threadsafe_list Nat).push_front_all [1, 2, 3]) ∧
    ((threadsafe_list.new : threadsafe_list Nat).push_front_all [1, 2, 3]).destructor
      = .ok threadsafe_list.new ∧
    ∃ l1, ((threadsafe_list.new : threadsafe_list Nat).push_front_all [1, 2, 3]).destructor
        = .ok l1 ∧ l1.head.next = .null ∧ l1.payloads = [] ∧
      l1.for_each threadsafe_list.record [] = .ok (l1, []) :=
  ⟨.push_front 3 (.push_front 2 (.push_front 1 .new)), rfl,
   (threadsafe_list.remove_if_true_drains Nat _
      (.push_front 3 (.push_front 2 (.push_front 1 .new)))).2⟩

/-- C21. For every list built through the public interface and every predicate
`p`, `remove_if(p)` returns a list whose payload sequence is the original one
filtered by "not `p`": every node whose payload does not satisfy `p` is still
linked, in the same relative order, no other node is, and the sentinel is as it
was. -/
theorem threadsafe_list.remove_if_keeps_the_rest (T : Type) (l : threadsafe_list T)
    (hr : threadsafe_list.reachable l) (p : T → Bool) :
    ∃ (xs : List T) (l1 : threadsafe_list T), l.payloads = xs.map some ∧
      l.remove_if p = .ok l1 ∧
      l1.payloads = (xs.filter (fun x => !p x)).map some ∧
      l1.head.data = l.head.data ∧
      (∀ x, x ∈ xs → p x = false → some x ∈ l1.payloads) ∧
      List.Sublist l1.payloads l.payloads := by
  obtain ⟨xs, hx⟩ := threadsafe_list.reachable_payloads hr
  obtain ⟨n1, e1, h1⟩ := threadsafe_list.remove_if_loop_filter p xs _ hx
  refine ⟨xs, { head := { data := l.head.data, next := n1 } }, hx, ?_, h1, rfl, ?_, ?_⟩
  · simp only [threadsafe_list.remove_if, e1]
  · intro x hxs hp
    have : some x ∈ (xs.filter (fun x => !p x)).map some :=
      List.mem_map.2 ⟨x, List.mem_filter.2 ⟨hxs, by simp [hp]⟩, rfl⟩
    simpa [threadsafe_list.payloads, h1] using this
  · have hs : List.Sublist ((xs.filter (fun x => !p x)).map some) (xs.map some) :=
      (List.filter_sublist xs).map some
    have e2 : l.head.next.payloads = xs.map some := hx
    simpa [threadsafe_list.payloads, h1, e2] using hs

/-- C21, at the list with payloads 2, 5, 2, 3, 2 and the predicate "equals 2":
the payloads 5, 3 remain, in this order. -/
theorem threadsafe_list.remove_if_keeps_the_rest_witness :
    threadsafe_list.reachable
      ((threadsafe_list.new : threadsafe_list Nat).push_front_all [2, 3, 2, 5, 2]) ∧
    ((threadsafe_list.new : threadsafe_list Nat).push_front_all [2, 3, 2, 5, 2]).remove_if
        (fun x => x == 2)
      = .ok ((threadsafe_list.new : threadsafe_list Nat).push_front_all [3, 5]) ∧
    ∃ (xs : List Nat) (l1 : threadsafe_list Nat),
      ((threadsafe_list.new : threadsafe_list Nat).push_front_all [2, 3, 2, 5, 2]).payloads
        = xs.map some ∧
      ((threadsafe_list.new : threadsafe_list Nat).push_front_all [2, 3, 2, 5, 2]).remove_if
        (fun x => x == 2) = .ok l1 ∧
      l1.payloads = (xs.filter (fun x => !(x == 2))).map some :=
  ⟨.push_front 2 (.push_front 5 (.push_front 2 (.push_front 3 (.push_front 2 .new)))),
   rfl,
   (threadsafe_list.remove_if_keeps_the_rest Nat _
      (.push_front 2 (.push_front 5 (.push_front 2 (.push_front 3 (.push_front 2 .new)))))
      (fun x => x == 2)).imp
    (fun _ h => h.imp (fun _ h1 => ⟨h1.1, h1.2.1, h1.2.2.1⟩))⟩

/-- C22. Key independence.  For all keys `k` and `k1` with `k1 != k`, every
value `v` and default `d`: on every bucket, and on every table with at least
one bucket whether or not the two keys select the same bucket,
`add_or_update_mapping(k, v)` and `remove_mapping(k)` return, and
`value_for(k1, d)` returns the same value after them as before. -/
theorem threadsafe_lookup_table.value_for_other_key
    (Key Value : Type) [DecidableEq Key] (k k1 : Key) (hne : k1 ≠ k) (d : Value) :
    (∀ b : threadsafe_lookup_table.bucket_type Key Value,
      (∀ v, ∃ b1 r, b.add_or_update_mapping k v = .ok b1 ∧
        b.value_for k1 d = .ok r ∧ b1.value_for k1 d = .ok r) ∧
      (∃ b1 r, b.remove_mapping k = .ok b1 ∧
        b.value_for k1 d = .ok r ∧ b1.value_for k1 d = .ok r)) ∧
    (∀ t : threadsafe_lookup_table Key Value, 0 < t.buckets.length →
      (∀ v, ∃ t1 r, t.add_or_update_mapping k v = .ok t1 ∧
        t.value_for k1 d = .ok r ∧ t1.value_for k1 d = .ok r) ∧
      (∃ t1 r, t.remove_mapping k = .ok t1 ∧
        t.value_for k1 d = .ok r ∧ t1.value_for k1 d = .ok r)) := by
  have hb : ∀ b : threadsafe_lookup_table.bucket_type Key Value,
      (∀ v, ∃ b1 r, b.add_or_update_mapping k v = .ok b1 ∧
        b.value_for k1 d = .ok r ∧ b1.value_for k1 d = .ok r) ∧
      (∃ b1 r, b.remove_mapping k = .ok b1 ∧
        b.value_for k1 d = .ok r ∧ b1.value_for k1 d = .ok r) := by
    intro b
    constructor
    · intro v
      refine ⟨_, _, threadsafe_lookup_table.bucket_type.bucket_add_or_update_mapping_eq b k v,
        threadsafe_lookup_table.bucket_type.value_for_find b k1 d, ?_⟩
      rw [threadsafe_lookup_table.bucket_type.value_for_other_after_add b k k1 v d hne]
      exact threadsafe_lookup_table.bucket_type.value_for_find b k1 d
    · refine ⟨_, _, threadsafe_lookup_table.bucket_type.bucket_remove_mapping_eq b k,
        threadsafe_lookup_table.bucket_type.value_for_find b k1 d, ?_⟩
      rw [threadsafe_lookup_table.bucket_type.value_for_other_after_remove b k k1 d hne]
      exact threadsafe_lookup_table.bucket_type.value_for_find b k1 d
  refine ⟨hb, ?_⟩
  intro t hpos
  obtain ⟨b, hbk⟩ := (threadsafe_lookup_table.get_bucket_eq t k hpos).2
  obtain ⟨b2, hbk1⟩ := (threadsafe_lookup_table.get_bucket_eq t k1 hpos).2
  have hlt : t.hasher k % t.buckets.length < t.buckets.length := Nat.mod_lt _ hpos
  -- the bucket of `k1` after the bucket of `k` has been replaced by `bnew`
  have hafter : ∀ bnew : threadsafe_lookup_table.bucket_type Key Value,
      bnew.value_for k1 d = b.value_for k1 d →
      ({ buckets := t.buckets.set (t.hasher k % t.buckets.length) bnew,
         hasher := t.hasher } : threadsafe_lookup_table Key Value).value_for k1 d
        = t.value_for k1 d := by
    intro bnew hsame
    rw [threadsafe_lookup_table.value_for_eq t k1 d hpos b2 hbk1]
    by_cases hi : t.hasher k % t.buckets.length = t.hasher k1 % t.buckets.length
    · have e : b2 = b := by
        rw [← hi, hbk] at hbk1
        exact (Option.some.inj hbk1).symm
      rw [e, ← hsame]
      apply threadsafe_lookup_table.value_for_eq
      · simpa using hpos
      · simp only [List.length_set, ← hi]
        exact List.getElem?_set_self hlt
    · apply threadsafe_lookup_table.value_for_eq
      · simpa using hpos
      · simp only [List.length_set]
        rw [List.getElem?_set_ne hi]
        exact hbk1
  have hr : t.value_for k1 d = b2.value_for k1 d :=
    threadsafe_lookup_table.value_for_eq t k1 d hpos b2 hbk1
  constructor
  · intro v
    refine ⟨_, _, threadsafe_lookup_table.add_or_update_mapping_eq t k v hpos b hbk,
      hr.trans (threadsafe_lookup_table.bucket_type.value_for_find b2 k1 d), ?_⟩
    rw [hafter _ (threadsafe_lookup_table.bucket_type.value_for_other_after_add b k k1 v d hne)]
    exact hr.trans (threadsafe_lookup_table.bucket_type.value_for_find b2 k1 d)
  · refine ⟨_, _, threadsafe_lookup_table.remove_mapping_eq t k hpos b hbk,
      hr.trans (threadsafe_lookup_table.bucket_type.value_for_find b2 k1 d), ?_⟩
    rw [hafter _ (threadsafe_lookup_table.bucket_type.value_for_other_after_remove b k k1 d hne)]
    exact hr.trans (threadsafe_lookup_table.bucket_type.value_for_find b2 k1 d)

/-- C22, at the table with three buckets (identity hash) holding (4, 1) and
(7, 2) in bucket 1: the keys 4 and 7 select the same bucket, and
`value_for(7, 0)` returns 2 before and after `remove_mapping(4)`. -/
theorem threadsafe_lookup_table.value_for_other_key_witness :
    (7 : Nat) ≠ 4 ∧
    0 < ({ buckets := [{ data := [] }, { data := [(4, 1), (7, 2)] }, { data := [] }],
           hasher := fun k : Nat => k } : threadsafe_lookup_table Nat Nat).buckets.length ∧
    ({ buckets := [{ data := [] }, { data := [(4, 1), (7, 2)] }, { data := [] }],
       hasher := fun k : Nat => k } : threadsafe_lookup_table Nat Nat).value_for 7 0 = .ok 2 ∧
    ∃ t1 r, ({ buckets := [{ data := [] }, { data := [(4, 1), (7, 2)] }, { data := [] }],
               hasher := fun k : Nat => k } : threadsafe_lookup_table Nat Nat).remove_mapping 4
        = .ok t1 ∧
      ({ buckets := [{ data := [] }, { data := [(4, 1), (7, 2)] }, { data := [] }],
         hasher := fun k : Nat => k } : threadsafe_lookup_table Nat Nat).value_for 7 0 = .ok r ∧
      t1.value_for 7 0 = .ok r :=
  ⟨by decide, by decide, rfl,
   ((threadsafe_lookup_table.value_for_other_key Nat Nat 4 7 (by decide) 0).2
      { buckets := [{ data := [] }, { data := [(4, 1), (7, 2)] }, { data := [] }],
        hasher := fun k : Nat => k } (by decide)).2⟩

/-- C22, as stated for every table, fails at the table constructed with no
bucket (identity hash), for the keys 4 and 7: `value_for(7, 0)` has undefined
behaviour before, and `add_or_update_mapping(4, 1)` and `remove_mapping(4)`
return no table after which it could be asked again. -/
theorem threadsafe_lookup_table.value_for_other_key_counterexample :
    (7 : Nat) ≠ 4 ∧
    (threadsafe_lookup_table.new 0 (fun k : Nat => k) : threadsafe_lookup_table Nat Nat).value_for 7 0 = .error .undefined_behaviour ∧
    (¬ ∃ t1 r, (threadsafe_lookup_table.new 0 (fun k : Nat => k) : threadsafe_lookup_table Nat Nat).add_or_update_mapping 4 1 = .ok t1 ∧
      (threadsafe_lookup_table.new 0 (fun k : Nat => k) : threadsafe_lookup_table Nat Nat).value_for 7 0 = .ok r ∧ t1.value_for 7 0 = .ok r) ∧
    (¬ ∃ t1 r, (threadsafe_lookup_table.new 0 (fun k : Nat => k) : threadsafe_lookup_table Nat Nat).remove_mapping 4 = .ok t1 ∧
      (threadsafe_lookup_table.new 0 (fun k : Nat => k) : threadsafe_lookup_table Nat Nat).value_for 7 0 = .ok r ∧ t1.value_for 7 0 = .ok r) := by
  refine ⟨by decide, rfl, ?_, ?_⟩
  · rintro ⟨t1, r, h, -⟩
    change Except.error fault.undefined_behaviour = Except.ok t1 at h
    cases h
  · rintro ⟨t1, r, h, -⟩
    change Except.error fault.undefined_behaviour = Except.ok t1 at h
    cases h

end ConcurrencyInAction
